import Mathlib

/-!
Shallow embedding of the delivery-manager application (Python) in Lean 4.

Strings are modelled as `List Char` (`Str`).  Python's text operations are
translated to explicit list functions; where the Python code relies on a
library routine (`str.strip`, `str.upper`, `csv`, `json`, `float`/`int`
conversion) the routine is modelled here on the character ranges the
application uses (ASCII whitespace/digits/letters); this is noted at each
definition.  File I/O is modelled by a `ReadResult` value describing what
the read of the underlying file produced: the file is missing, the read
raised, or the read returned a string.  Python exceptions that escape a
function are modelled by `Option`/`Except` results.
-/

/-- Strings as explicit character lists, for ease of induction. -/
abbrev Str := List Char

/-- Model of Python `str.strip` whitespace (ASCII subset of Python's
whitespace set, which is what the application's data contains). -/
def isSpaceChar (c : Char) : Bool :=
  c = ' ' || c = '\t' || c = '\n' || c = '\r' || c = '\x0b' || c = '\x0c'

/-- Model of Python `str.strip()`: drop whitespace from both ends. -/
def pyStrip (s : Str) : Str :=
  ((s.dropWhile isSpaceChar).reverse.dropWhile isSpaceChar).reverse

/-- ASCII decimal digit (`'0' ≤ c ≤ '9'`, stated on code points), model of
the characters accepted by `str.isdigit` and by the regex class `\d` on
the application's data. -/
def isDigitChar (c : Char) : Bool :=
  48 ≤ c.toNat && c.toNat ≤ 57

/-- ASCII alphanumeric, the regex class `[A-Za-z0-9]`. -/
def isAlnumChar (c : Char) : Bool :=
  (48 ≤ c.toNat && c.toNat ≤ 57) || (97 ≤ c.toNat && c.toNat ≤ 122) ||
    (65 ≤ c.toNat && c.toNat ≤ 90)

/-- Split a string at every character satisfying `p`, keeping empty
pieces — the behaviour of Python `re.split` with a character class, and of
`str.split(sep)` for a one-character separator. -/
def splitOnP (p : Char → Bool) : Str → List Str
  | [] => [[]]
  | c :: r =>
    if p c then [] :: splitOnP p r
    else
      match splitOnP p r with
      | t :: ts => (c :: t) :: ts
      | [] => [[c]]

/-- Split on runs of whitespace, dropping empty pieces: Python `str.split()`
with no argument. -/
def splitWs (s : Str) : List Str :=
  (splitOnP isSpaceChar s).filter (fun l => !l.isEmpty)

/-- Model of Python `str.upper` on one character (ASCII case mapping,
which is the identity with Python's mapping on the application's data).
This is definitionally Lean's `Char.toUpper`. -/
def pyUpperChar (c : Char) : Char :=
  if 97 ≤ c.toNat ∧ c.toNat ≤ 122 then Char.ofNat (c.toNat - 32) else c

/-- Model of Python `str.upper`. -/
def pyUpper (s : Str) : Str :=
  s.map pyUpperChar

/-! ## Numeric values

Python numbers reaching the data layer are `int`s and `float`s.  An `int`
is an unbounded integer.  A `float` is modelled by the decimal literal it
prints as: `Flt m k` denotes the value `m / 10^(k+1)`, rendered with
`k + 1` digits after the decimal point (every Python float prints with at
least one fractional digit, or in exponent form denoting the same value). -/
structure Flt where
  mant : Int
  fd : Nat
  deriving Repr, DecidableEq

/-- Rational value of a float model. -/
def Flt.val (f : Flt) : ℚ :=
  (f.mant : ℚ) / ((10 : ℚ) ^ (f.fd + 1))

/-- A Python number: `int` or `float`.  `dec m e` denotes `m / 10^e`. -/
inductive JNum where
  | int : Int → JNum
  | dec : Int → Nat → JNum
  deriving Repr, DecidableEq

/-- Rational value of a Python number. -/
def JNum.val : JNum → ℚ
  | .int n => (n : ℚ)
  | .dec m e => (m : ℚ) / ((10 : ℚ) ^ e)

/-! ## Data model: `src/models/order.py` -/
/-- `OrderLine` (src/models/order.py): one product line of an order.
`line_total` is stored as its own field, exactly as in the dataclass
(computed once in `__post_init__`, not re-derived). -/
structure OrderLine where
  product_code : Str
  quantity : Int
  unit_price : Flt
  line_total : Flt

/-- `Order` (src/models/order.py).  `delivery_fee` may be absent (`None`)
at runtime, which `is_valid` checks for. -/
structure Order where
  client_name : Str
  phone : Str
  address : Str
  delivery_fee : Option JNum
  products : Str
  total_price : JNum
  status : Str
  agent : Str
  notes : Str
  order_lines : List OrderLine

/-- `Order.is_valid` (src/models/order.py lines 57-72), translated test by
test; Python falsiness of a string is emptiness. -/
def Order.is_valid (o : Order) : Bool :=
  if o.client_name.isEmpty || (pyStrip o.client_name).isEmpty then false
  else if o.phone.isEmpty || (pyStrip o.phone).isEmpty then false
  else if o.address.isEmpty || (pyStrip o.address).isEmpty then false
  else
    match o.delivery_fee with
    | none => false
    | some f => decide (0 ≤ f.val)

/-! ## File reads -/
/-- Outcome of reading a file: the file does not exist, the read raised an
exception, or the read produced the file's text. -/
inductive ReadResult where
  | missing
  | err
  | ok : Str → ReadResult

/-- Python text mode translates `\r\n` and bare `\r` to `\n`. -/
def univNewlines : Str → Str
  | [] => []
  | '\r' :: '\n' :: r => '\n' :: univNewlines r
  | '\r' :: r => '\n' :: univNewlines r
  | c :: r => c :: univNewlines r

/-- `[line.strip() for line in f if line.strip()]`: split the text into
lines, strip each, keep the non-blank ones. -/
def readLinesStripped (content : Str) : List Str :=
  ((splitOnP (fun c => c = '\n') (univNewlines content)).map pyStrip).filter
    (fun l => !l.isEmpty)

/-! ## Config constants (src/config.py) -/
namespace Config

def DEFAULT_AGENTS : List Str :=
  [("Jean").data, ("Hery").data, ("Mamy").data, ("Rado").data,
   ("External Courier").data]

def MAX_ADDRESS_HISTORY : Nat := 200

end Config

/-! ## Agent manager: `src/data/agents_manager.py` -/
/-- `AgentManager.get_default_agents` (returns a copy of
`Config.DEFAULT_AGENTS`; copying is invisible to a pure model). -/
def get_default_agents : List Str :=
  Config.DEFAULT_AGENTS

/-- `AgentManager.load_agents` (src/data/agents_manager.py lines 21-37):
missing file → defaults; read error → defaults; otherwise the non-blank
stripped lines, or the defaults if there are none. -/
def load_agents : ReadResult → List Str
  | .missing => get_default_agents
  | .err => get_default_agents
  | .ok content =>
    let agents := readLinesStripped content
    if agents.isEmpty then get_default_agents else agents

/-! ## Address manager: `src/data/addresses_manager.py` -/
/-- `AddressManager.load_addresses` (lines 21-37): missing file → `[]`;
read error → `[]`; otherwise the non-blank stripped lines. -/
def load_addresses : ReadResult → List Str
  | .missing => []
  | .err => []
  | .ok content => readLinesStripped content

/-- The list of addresses `AddressManager.save_address` (lines 39-71)
writes back, given the loaded history: strip the new address, drop its
first occurrence from the history, push it on top, cap the length.
Returns `none` when the address is blank and nothing is written. -/
def save_address_list (history : List Str) (address : Str) : Option (List Str) :=
  if (pyStrip address).isEmpty then none
  else
    some ((pyStrip address ::
      (if pyStrip address ∈ history then history.erase (pyStrip address) else history)).take
        Config.MAX_ADDRESS_HISTORY)

/-- The file text written by `save_address`: each entry followed by `\n`. -/
def linesToFile (ls : List Str) : Str :=
  ls.foldr (fun l acc => l ++ '\n' :: acc) []

/-! ## Products loader: `src/data/products_loader.py` -/
/-- Python `dict.get` over an insertion-ordered association list with
distinct keys (first match wins). -/
def dictGet (k : Str) : List (Str × ℚ) → Option ℚ
  | [] => none
  | (k', v) :: r => if k' = k then some v else dictGet k r

/-- `get_product_price` (src/data/products_loader.py lines 79-90):
`products.get(code.upper(), 0.0)`. -/
def get_product_price (code : Str) (products : List (Str × ℚ)) : ℚ :=
  (dictGet (pyUpper code) products).getD 0

/-! ## Validators: `src/validators/validators.py` (shipped unnamed) -/
/-- The cleaning step of `validate_phone`: remove every space, dash and
parenthesis (four chained single-character `str.replace` calls). -/
def phoneClean (p : Str) : Str :=
  p.filter (fun c => !(c = ' ' || c = '-' || c = '(' || c = ')'))

/-- Strip one leading `+` (`cleaned[1:]` when `cleaned.startswith("+")`). -/
def phoneDigits : Str → Str
  | '+' :: r => r
  | cl => cl

/-- Model of Python `str.isdigit`: non-empty and all digits (ASCII
range; the application's phone data is ASCII). -/
def pyIsdigit (s : Str) : Bool :=
  !s.isEmpty && s.all isDigitChar

/-- The `/`-separated, stripped, non-blank parts of a phone field. -/
def phoneParts (phone : Str) : List Str :=
  ((splitOnP (fun c => c = '/') phone).map pyStrip).filter (fun l => !l.isEmpty)

/-- The per-part loop of `validate_phone` (lines 32-48 of the
validators file). -/
def validatePhoneParts : List Str → Bool × Str
  | [] => (true, ("OK").data)
  | part :: rest =>
    let digits := phoneDigits (phoneClean part)
    if !pyIsdigit digits then
      (false, ("Phone '").data ++ part ++ ("' contains invalid characters").data)
    else if digits.length < 8 || 15 < digits.length then
      (false, ("Phone '").data ++ part ++ ("' length must be 8-15 digits").data)
    else validatePhoneParts rest

/-- `validate_phone` (validators file lines 8-50). -/
def validate_phone (phone : Str) : Bool × Str :=
  if phone.isEmpty then (false, ("Empty phone field").data)
  else
    let parts := phoneParts phone
    if parts.isEmpty then (false, ("Empty phone field").data)
    else validatePhoneParts parts

/-- The claim's description of a valid part: after removing spaces, dashes
and parentheses and an optional leading `+`, only digits, 8 to 15 of
them.  (Spec-side formulation, to be compared with the code.) -/
def specPhonePartOk (part : Str) : Prop :=
  let d := phoneDigits (phoneClean part)
  (∀ c ∈ d, isDigitChar c = true) ∧ 8 ≤ d.length ∧ d.length ≤ 15

/-! ## Numeric string conversions

Models of the Python builtins `int(str)` and `float(str)` on ordinary
numeric literals (optional sign, decimal digits, for floats an optional
fractional part and exponent).  Python additionally accepts underscores
between digits and the literals inf/nan; those never arise in this
application's data and are not modelled. -/
/-- Numeric value of a digit string (most significant first). -/
def digitsVal (ds : Str) : Nat :=
  ds.foldl (fun a c => a * 10 + (c.toNat - 48)) 0

/-- Model of `int(s)`: strip, optional sign, one or more digits. -/
def pyIntOfStr (s : Str) : Option Int :=
  let t := pyStrip s
  let sp : Int × Str :=
    match t with
    | '+' :: r => (1, r)
    | '-' :: r => (-1, r)
    | _ => (1, t)
  if !sp.2.isEmpty && sp.2.all isDigitChar then some (sp.1 * (digitsVal sp.2 : Int))
  else none

/-- Exponent tail of a float literal: empty, or `e`/`E`, optional sign,
one or more digits filling the rest of the string. -/
def parseExpOpt : Str → Option Int
  | [] => some 0
  | c :: r =>
    if c = 'e' || c = 'E' then
      let sp : Int × Str :=
        match r with
        | '+' :: rr => (1, rr)
        | '-' :: rr => (-1, rr)
        | _ => (1, r)
      if !sp.2.isEmpty && sp.2.all isDigitChar then
        some (sp.1 * (digitsVal sp.2 : Int))
      else none
    else none

/-- Model of `float(s)` for finite decimal literals, as an exact
rational. -/
def pyFloatOfStr (s : Str) : Option ℚ :=
  let t := pyStrip s
  let sp : ℚ × Str :=
    match t with
    | '+' :: r => (1, r)
    | '-' :: r => (-1, r)
    | _ => (1, t)
  let ip := sp.2.takeWhile isDigitChar
  let r1 := sp.2.dropWhile isDigitChar
  match r1 with
  | '.' :: r2 =>
    let fp := r2.takeWhile isDigitChar
    let r3 := r2.dropWhile isDigitChar
    if ip.isEmpty && fp.isEmpty then none
    else
      (parseExpOpt r3).map fun ex =>
        sp.1 * ((digitsVal ip : ℚ) + (digitsVal fp : ℚ) / (10 : ℚ) ^ fp.length) *
          (10 : ℚ) ^ ex
  | _ =>
    if ip.isEmpty then none
    else (parseExpOpt r1).map fun ex => sp.1 * (digitsVal ip : ℚ) * (10 : ℚ) ^ ex

/-- Python `str.replace(t, r)` where the target is `t0 :: ts`:
left-to-right, non-overlapping, no rescan of the replacement.  The fuel
argument (one unit per consumed character, `s.length` suffices) makes
the recursion structural. -/
def strReplaceF : Nat → Str → Char → Str → Str → Str
  | 0, s, _, _, _ => s
  | fuel + 1, s, t0, ts, r =>
    match s with
    | [] => []
    | c :: rest =>
      if c = t0 && ts.isPrefixOf rest then
        r ++ strReplaceF fuel (rest.drop ts.length) t0 ts r
      else c :: strReplaceF fuel rest t0 ts r

def strReplace (s : Str) (t0 : Char) (ts r : Str) : Str :=
  strReplaceF s.length s t0 ts r

/-! ## Formatters: `src/utils/formatters.py` -/
/-- A value passed to `format_currency`: `None`, a number, or a string
(the non-numeric case of interest; other objects behave like strings
whose `float()` conversion fails). -/
inductive PyVal where
  | none
  | num : ℚ → PyVal
  | str : Str → PyVal

/-- Model of Python `round()` on an exact rational: round half to even. -/
def roundHalfEven (q : ℚ) : ℤ :=
  let f := ⌊q⌋
  let r := q - (f : ℚ)
  if r < 1 / 2 then f
  else if 1 / 2 < r then f + 1
  else if Even f then f else f + 1

/-- The character of a decimal digit `d ≤ 9`. -/
def digitChar (d : Nat) : Char :=
  Char.ofNat (48 + d)

/-- Decimal digit characters of a natural number, most significant
first (fueled recursion on `n / 10`). -/
def natDigitsF : Nat → Nat → Str
  | 0, _ => []
  | fuel + 1, n =>
    if n < 10 then [digitChar n]
    else natDigitsF fuel (n / 10) ++ [digitChar (n % 10)]

def natDigits (n : Nat) : Str :=
  natDigitsF (n + 1) n

/-- Insert a space after every three characters of a reversed digit
string: the `f"{n:,}"` grouping with `,` replaced by a space. -/
def group3 : Str → Str
  | a :: b :: c :: d :: rest => a :: b :: c :: ' ' :: group3 (d :: rest)
  | l => l

/-- `f"{n:,}".replace(",", " ")` for a natural number. -/
def natThousands (ds : Str) : Str :=
  (group3 ds.reverse).reverse

/-- `f"{v:,.2f}".replace(",", " ")` for a non-negative exact rational:
round to two decimals (half to even, the rounding of the exact value),
group the integer part. -/
def decFmt (a : ℚ) : Str :=
  let c := (roundHalfEven (a * 100)).toNat
  natThousands (natDigits (c / 100)) ++ '.' :: [digitChar (c / 10 % 10), digitChar (c % 10)]

/-- The numeric body of `format_currency` (src/utils/formatters.py lines
17-35): tolerance check against the nearest integer, integer or
two-decimal rendering, sign prefix, ` Ar` suffix. -/
def fcNum (q : ℚ) : Str :=
  let vAbs := |q|
  let formatted :=
    if |vAbs - (roundHalfEven vAbs : ℚ)| < 1 / 10000 then
      natThousands (natDigits (roundHalfEven vAbs).toNat)
    else decFmt vAbs
  (if q < 0 then ['-'] else []) ++ formatted ++ (" Ar").data

/-- `format_currency` (src/utils/formatters.py lines 7-35). -/
def format_currency : PyVal → Str
  | .none => []
  | .num q => fcNum q
  | .str s =>
    match pyFloatOfStr s with
    | some q => fcNum q
    | Option.none => s

/-- `parse_numeric` (src/utils/formatters.py lines 38-73): strip, remove
every space, `Ar`, `ar` and comma (in that order), parse as float when a
`.` is present and as int otherwise, reject negatives when asked to. -/
def parse_numeric (value_str : Str) (allow_negative : Bool := true) : Option ℚ :=
  let cleaned :=
    strReplace
      (strReplace (strReplace (strReplace (pyStrip value_str) ' ' [] []) 'A' ['r'] [])
        'a' ['r'] [])
      ',' [] []
  if cleaned.isEmpty then none
  else
    let v? :=
      if cleaned.contains '.' then pyFloatOfStr cleaned
      else (pyIntOfStr cleaned).map fun n => (n : ℚ)
    match v? with
    | none => none
    | some v => if !allow_negative && v < 0 then none else some v

/-! ## Product-field parser: `src/utils/parsers.py` -/
/-- One parsed `{code, qty}` entry. -/
structure PEntry where
  code : Str
  qty : Int
  deriving Repr, DecidableEq

/-- The `-?\d+` capture of `PRODUCT_PATTERN`, anchored at the start of
`s` (maximal digit run; trailing text is outside the match). -/
def parseSignedDigits (s : Str) : Option Int :=
  match s with
  | '-' :: r =>
    let ds := r.takeWhile isDigitChar
    if ds.isEmpty then none else some (-(digitsVal ds : Int))
  | _ =>
    let ds := s.takeWhile isDigitChar
    if ds.isEmpty then none else some (digitsVal ds : Int)

/-- The optional group `(?:[:xX]?\s*(-?\d+))?` of `PRODUCT_PATTERN`,
applied after the code and the following whitespace: an optional
separator, optional whitespace, then a signed quantity.  Returns the
captured quantity, or `none` when the group matches empty. -/
def matchProductQty (r2 : Str) : Option Int :=
  match r2 with
  | [] => none
  | c :: rest =>
    if c = ':' || c = 'x' || c = 'X' then parseSignedDigits (rest.dropWhile isSpaceChar)
    else parseSignedDigits r2

/-- `PRODUCT_PATTERN.match(item)`: `([A-Za-z0-9]+)\s*(?:[:xX]?\s*(-?\d+))?`.
Fails exactly when `item` does not start with an alphanumeric character
(the leading `+`-quantified group needs one character); otherwise the
code capture is the maximal alphanumeric prefix and the quantity capture
is as in `matchProductQty`. -/
def matchProduct (item : Str) : Option (Str × Option Int) :=
  let A := item.takeWhile isAlnumChar
  if A.isEmpty then none
  else some (A, matchProductQty ((item.dropWhile isAlnumChar).dropWhile isSpaceChar))

/-- The per-item step of `parse_product_field` (src/utils/parsers.py
lines 41-60) on a stripped, non-blank item.  `none` models the uncaught
`ValueError` from `int(tokens[1])` when the fallback's quantity token
passes the `lstrip("-").isdigit()` test but has more than one leading
minus sign. -/
def parseItem (item : Str) : Option PEntry :=
  match matchProduct item with
  | some (code, q) => some ⟨pyUpper code, q.getD 1⟩
  | none =>
    match splitWs item with
    | [t1, t2] =>
      if pyIsdigit (t2.dropWhile fun c => c = '-') then
        match pyIntOfStr t2 with
        | some n => some ⟨pyUpper t1, n⟩
        | none => none
      else some ⟨pyUpper item, 1⟩
    | _ => some ⟨pyUpper item, 1⟩

/-- The item loop of `parse_product_field`: strip each piece, skip
blanks, parse in order; an exception anywhere aborts the call. -/
def ppfGo : List Str → Option (List PEntry)
  | [] => some []
  | item :: rest =>
    let it := pyStrip item
    if it.isEmpty then ppfGo rest
    else
      match parseItem it with
      | some e => (ppfGo rest).map fun l => e :: l
      | none => none

/-- `parse_product_field` (src/utils/parsers.py lines 12-62). -/
def parse_product_field (field_text : Str) : Option (List PEntry) :=
  if (pyStrip field_text).isEmpty then some []
  else ppfGo (splitOnP (fun c => c = ';' || c = ',') field_text)

/-- The stripped non-blank comma/semicolon-separated tokens of a product
field, for stating per-token properties. -/
def productTokens (s : Str) : List Str :=
  ((splitOnP (fun c => c = ';' || c = ',') s).map pyStrip).filter fun l => !l.isEmpty

/-! ## Lemmas for the phone validator (C4) -/
/-- The boolean the per-part loop effectively tests. -/
def phonePartOkBool (part : Str) : Bool :=
  let digits := phoneDigits (phoneClean part)
  pyIsdigit digits && !(digits.length < 8 || 15 < digits.length)

/-! ## JSON: model of `json.dumps` / `json.loads` as the csv handler uses
them (src/data/csv_handler.py serializes the order-lines list with
`json.dumps` and reads it back with `json.loads`, substituting `[]` on
`JSONDecodeError`).

`json.dumps` is modelled without the `ensure_ascii` transformation
(non-ASCII characters are written raw rather than as `\uXXXX` escapes);
both encodings decode to the same string, so round-trip statements are
unaffected.  Surrogate-pair escapes are not modelled. -/
inductive JVal where
  | str : Str → JVal
  | jnum : JNum → JVal
  | arr : List JVal → JVal
  | obj : List (Str × JVal) → JVal
  | bool : Bool → JVal
  | null : JVal
  deriving Repr

/-- Lower-case hexadecimal digit, as Python's `\uXXXX` escapes use. -/
def hexDigit (n : Nat) : Char :=
  if n < 10 then Char.ofNat (48 + n) else Char.ofNat (87 + n)

/-- JSON escaping of one character (`"`, `\`, the short control escapes,
`\u00XX` for other control characters, everything else raw). -/
def jsonEscapeChar (c : Char) : Str :=
  if c = '"' then ['\\', '"']
  else if c = '\\' then ['\\', '\\']
  else if c = '\n' then ['\\', 'n']
  else if c = '\t' then ['\\', 't']
  else if c = '\r' then ['\\', 'r']
  else if c = '\x08' then ['\\', 'b']
  else if c = '\x0c' then ['\\', 'f']
  else if c.toNat < 32 then
    ['\\', 'u', '0', '0', hexDigit (c.toNat / 16), hexDigit (c.toNat % 16)]
  else [c]

def jsonEscape (s : Str) : Str :=
  s.foldr (fun c acc => jsonEscapeChar c ++ acc) []

/-- `json.dumps` of a string. -/
def dumpStr (s : Str) : Str :=
  '"' :: (jsonEscape s ++ ['"'])

/-- Decimal digits of an integer with a leading minus for negatives. -/
def intDumps (n : Int) : Str :=
  if n < 0 then '-' :: natDigits (-n).toNat else natDigits n.toNat

/-- `natDigits` left-padded with zeros to `width` digits. -/
def padDigits (n : Nat) (width : Nat) : Str :=
  List.replicate (width - (natDigits n).length) '0' ++ natDigits n

/-- Decimal rendering of `m / 10^e` with exactly `e` digits after the
point (`e ≥ 1`; `e = 0` falls back to appending `.0`). -/
def decDump (m : Int) (e : Nat) : Str :=
  if e = 0 then intDumps m ++ ['.', '0']
  else
    (if m < 0 then ['-'] else []) ++
      natDigits (m.natAbs / 10 ^ e) ++ '.' :: padDigits (m.natAbs % 10 ^ e) e

/-- `json.dumps` / `str()` of a Python number. -/
def dumpJNum : JNum → Str
  | .int n => intDumps n
  | .dec m e => decDump m e

/-- The JSON object `json.dumps` writes for one order line
(src/data/csv_handler.py lines 44-52): the four keys in insertion
order, with the default `", "` and `": "` separators. -/
def dumpOrderLineObj (l : OrderLine) : Str :=
  '\x7b' :: ((("\"product_code\": ").data ++ dumpStr l.product_code ++
    (", \"quantity\": ").data ++ intDumps l.quantity ++
    (", \"unit_price\": ").data ++ decDump l.unit_price.mant (l.unit_price.fd + 1) ++
    (", \"line_total\": ").data ++ decDump l.line_total.mant (l.line_total.fd + 1)) ++
    ['\x7d'])

def dumpItems : List OrderLine → Str
  | [] => []
  | [l] => dumpOrderLineObj l
  | l :: rest => dumpOrderLineObj l ++ (", ").data ++ dumpItems rest

/-- `json.dumps(order_lines_data)`. -/
def dumpOrderLines (ls : List OrderLine) : Str :=
  '[' :: (dumpItems ls ++ [']'])

/-- The JSON value `json.loads` recovers for one order line. -/
def lineJVal (l : OrderLine) : JVal :=
  .obj [((("product_code").data), .str l.product_code),
        ((("quantity").data), .jnum (.int l.quantity)),
        ((("unit_price").data), .jnum (.dec l.unit_price.mant (l.unit_price.fd + 1))),
        ((("line_total").data), .jnum (.dec l.line_total.mant (l.line_total.fd + 1)))]

/-! ### JSON parser (`json.loads`) -/
/-- JSON whitespace. -/
def isJsonWs (c : Char) : Bool :=
  c = ' ' || c = '\t' || c = '\n' || c = '\r'

def skipWs (s : Str) : Str :=
  s.dropWhile isJsonWs

/-- Value of a hexadecimal digit. -/
def hexVal (c : Char) : Option Nat :=
  if 48 ≤ c.toNat ∧ c.toNat ≤ 57 then some (c.toNat - 48)
  else if 97 ≤ c.toNat ∧ c.toNat ≤ 102 then some (c.toNat - 87)
  else if 65 ≤ c.toNat ∧ c.toNat ≤ 70 then some (c.toNat - 55)
  else none

/-- JSON string body parser, after the opening quote: returns the decoded
string and the text after the closing quote.  Raw control characters are
rejected, as by Python's strict mode. -/
def parseJStr : Str → Option (Str × Str)
  | [] => none
  | c :: r =>
    if c = '"' then some ([], r)
    else if c = '\\' then
      match r with
      | [] => none
      | e :: r2 =>
        if e = '"' then (parseJStr r2).map fun p => ('"' :: p.1, p.2)
        else if e = '\\' then (parseJStr r2).map fun p => ('\\' :: p.1, p.2)
        else if e = '/' then (parseJStr r2).map fun p => ('/' :: p.1, p.2)
        else if e = 'n' then (parseJStr r2).map fun p => ('\n' :: p.1, p.2)
        else if e = 't' then (parseJStr r2).map fun p => ('\t' :: p.1, p.2)
        else if e = 'r' then (parseJStr r2).map fun p => ('\r' :: p.1, p.2)
        else if e = 'b' then (parseJStr r2).map fun p => ('\x08' :: p.1, p.2)
        else if e = 'f' then (parseJStr r2).map fun p => ('\x0c' :: p.1, p.2)
        else if e = 'u' then
          match r2 with
          | h1 :: h2 :: h3 :: h4 :: r3 =>
            match hexVal h1, hexVal h2, hexVal h3, hexVal h4 with
            | some a, some b, some c3, some d =>
              (parseJStr r3).map fun p =>
                (Char.ofNat (((a * 16 + b) * 16 + c3) * 16 + d) :: p.1, p.2)
            | _, _, _, _ => none
          | _ => none
        else none
    else if c.toNat < 32 then none
    else (parseJStr r).map fun p => (c :: p.1, p.2)

/-- Integer part of a JSON number: `0`, or a nonzero digit followed by
digits. -/
def parseJIntPart (s : Str) : Option (Nat × Str) :=
  match s with
  | [] => none
  | c :: r =>
    if c = '0' then some (0, r)
    else if isDigitChar c then
      some (digitsVal ((c :: r).takeWhile isDigitChar), (c :: r).dropWhile isDigitChar)
    else none

/-- Optional fraction part: `some ((value, digit count), rest)`. -/
def parseFrac (s : Str) : Option (Option (Nat × Nat) × Str) :=
  match s with
  | [] => some (none, [])
  | c :: r =>
    if c = '.' then
      let ds := r.takeWhile isDigitChar
      if ds.isEmpty then none
      else some (some (digitsVal ds, ds.length), r.dropWhile isDigitChar)
    else some (none, c :: r)

/-- Optional exponent part: `some (some value, rest)` when present. -/
def parseExpJ (s : Str) : Option (Option Int × Str) :=
  match s with
  | [] => some (none, [])
  | c :: r =>
    if c = 'e' || c = 'E' then
      let sp : Int × Str :=
        match r with
        | [] => (1, [])
        | c2 :: r2 => if c2 = '+' then (1, r2) else if c2 = '-' then (-1, r2) else (1, r)
      let ds := sp.2.takeWhile isDigitChar
      if ds.isEmpty then none
      else some (some (sp.1 * (digitsVal ds : Int)), sp.2.dropWhile isDigitChar)
    else some (none, c :: r)

/-- A non-negative JSON number (after any leading minus): an int when
neither fraction nor exponent is present, a float otherwise, with exact
decimal value. -/
def parseJNumAbs (s : Str) : Option (JNum × Str) :=
  match parseJIntPart s with
  | none => none
  | some (ip, r1) =>
    match parseFrac r1 with
    | none => none
    | some (fr, r2) =>
      match parseExpJ r2 with
      | none => none
      | some (ex, r3) =>
        match fr, ex with
        | none, none => some (.int (ip : Int), r3)
        | _, _ =>
          let m0 : Nat := match fr with
            | none => ip
            | some (fv, flen) => ip * 10 ^ flen + fv
          let e0 : Nat := match fr with
            | none => 0
            | some (_, flen) => flen
          let me : Int × Nat := match ex with
            | none => ((m0 : Int), e0)
            | some x =>
              if 0 ≤ x then ((m0 : Int) * 10 ^ x.toNat, e0)
              else ((m0 : Int), e0 + (-x).toNat)
          if me.2 = 0 then some (.dec (me.1 * 10) 1, r3)
          else some (.dec me.1 me.2, r3)

def jnumNeg : JNum → JNum
  | .int k => .int (-k)
  | .dec m e => .dec (-m) e

def parseJNum (s : Str) : Option (JNum × Str) :=
  match s with
  | [] => none
  | c :: r =>
    if c = '-' then (parseJNumAbs r).map fun p => (jnumNeg p.1, p.2)
    else parseJNumAbs (c :: r)

mutual

/-- JSON value parser with explicit fuel (each recursion step consumes
one unit; the top-level call supplies more fuel than any input can
use). -/
def parseJVal : Nat → Str → Option (JVal × Str)
  | 0, _ => none
  | fuel + 1, s =>
    match skipWs s with
    | [] => none
    | c :: r =>
      if c = '"' then (parseJStr r).map fun p => (.str p.1, p.2)
      else if c = '[' then
        match skipWs r with
        | [] => none
        | c2 :: r2 =>
          if c2 = ']' then some (.arr [], r2)
          else (parseJItems fuel (c2 :: r2)).map fun p => (.arr p.1, p.2)
      else if c = '\x7b' then
        match skipWs r with
        | [] => none
        | c2 :: r2 =>
          if c2 = '\x7d' then some (.obj [], r2)
          else (parseJMembers fuel (c2 :: r2)).map fun p => (.obj p.1, p.2)
      else if c = 't' then
        if (("rue").data).isPrefixOf r then some (.bool true, r.drop 3) else none
      else if c = 'f' then
        if (("alse").data).isPrefixOf r then some (.bool false, r.drop 4) else none
      else if c = 'n' then
        if (("ull").data).isPrefixOf r then some (.null, r.drop 3) else none
      else (parseJNum (c :: r)).map fun p => (.jnum p.1, p.2)

/-- One or more comma-separated array items up to the closing bracket. -/
def parseJItems : Nat → Str → Option (List JVal × Str)
  | 0, _ => none
  | fuel + 1, s =>
    match parseJVal fuel s with
    | none => none
    | some (v, r) =>
      match skipWs r with
      | [] => none
      | c :: r2 =>
        if c = ',' then (parseJItems fuel r2).map fun p => (v :: p.1, p.2)
        else if c = ']' then some ([v], r2)
        else none

/-- One or more `"key": value` members up to the closing brace. -/
def parseJMembers : Nat → Str → Option (List (Str × JVal) × Str)
  | 0, _ => none
  | fuel + 1, s =>
    match skipWs s with
    | [] => none
    | c :: r =>
      if c = '"' then
        match parseJStr r with
        | none => none
        | some (k, r1) =>
          match skipWs r1 with
          | [] => none
          | c2 :: r2 =>
            if c2 = ':' then
              match parseJVal fuel r2 with
              | none => none
              | some (v, r3) =>
                match skipWs r3 with
                | [] => none
                | c3 :: r4 =>
                  if c3 = ',' then
                    (parseJMembers fuel r4).map fun p => ((k, v) :: p.1, p.2)
                  else if c3 = '\x7d' then some ([(k, v)], r4)
                  else none
            else none
      else none

end

/-- `json.loads`: parse one value and require only whitespace after it. -/
def jsonLoads (s : Str) : Option JVal :=
  match parseJVal (2 * s.length + 8) s with
  | some (v, rest) => if (skipWs rest).isEmpty then some v else none
  | none => none

/-! ## CSV: model of the `csv` module as the handler uses it
(`csv.DictWriter`/`csv.DictReader` with the default dialect: delimiter
`,`, quote char `"`, `QUOTE_MINIMAL`, line terminator `\r\n`). -/
/-- `QUOTE_MINIMAL`: quote when the field contains the delimiter, the
quote char, or a line-terminator character. -/
def csvNeedQuote (f : Str) : Bool :=
  f.any fun c => c = ',' || c = '"' || c = '\r' || c = '\n'

/-- Double every quote character. -/
def csvQuote (f : Str) : Str :=
  f.foldr (fun c acc => if c = '"' then '"' :: '"' :: acc else c :: acc) []

/-- One serialized field. -/
def csvField (f : Str) : Str :=
  if csvNeedQuote f then '"' :: (csvQuote f ++ ['"']) else f

/-- Fields joined with commas. -/
def csvJoin : List Str → Str
  | [] => []
  | [f] => f
  | f :: fs => f ++ ',' :: csvJoin fs

/-- One serialized record, `\r\n`-terminated. -/
def csvRecord (fs : List Str) : Str :=
  csvJoin (fs.map csvField) ++ ['\r', '\n']

/-- A whole file: the records concatenated. -/
def csvFile (rs : List (List Str)) : Str :=
  (rs.map csvRecord).flatten

/-- What ends a CSV field: a comma (more fields follow), a record end, or
the end of the file. -/
inductive CSep where
  | comma
  | nl
  | eof
  deriving Repr, DecidableEq

/-- Unquoted-field scanner: reads up to a delimiter or record end. -/
def parseUnquoted : Str → Str × CSep × Str
  | [] => ([], .eof, [])
  | c :: r =>
    if c = ',' then ([], .comma, r)
    else if c = '\r' then
      match r with
      | '\n' :: r2 => ([], .nl, r2)
      | _ => ([], .nl, r)
    else if c = '\n' then ([], .nl, r)
    else
      let p := parseUnquoted r
      (c :: p.1, p.2.1, p.2.2)

/-- Quoted-field scanner, after the opening quote: `""` is an escaped
quote, a lone quote closes the field; text after the closing quote is
appended leniently, as the `csv` module does. -/
def parseQuoted : Str → Str × CSep × Str
  | [] => ([], .eof, [])
  | c :: r =>
    if c = '"' then
      match r with
      | [] => ([], .eof, [])
      | c2 :: r2 =>
        if c2 = '"' then
          let p := parseQuoted r2
          ('"' :: p.1, p.2.1, p.2.2)
        else if c2 = ',' then ([], .comma, r2)
        else if c2 = '\r' then
          match r2 with
          | '\n' :: r3 => ([], .nl, r3)
          | _ => ([], .nl, r2)
        else if c2 = '\n' then ([], .nl, r2)
        else parseUnquoted (c2 :: r2)
    else
      let p := parseQuoted r
      (c :: p.1, p.2.1, p.2.2)

def parseCsvField (s : Str) : Str × CSep × Str :=
  match s with
  | [] => parseUnquoted []
  | c :: r => if c = '"' then parseQuoted r else parseUnquoted (c :: r)

/-- One record: fields separated by commas (fuel bounds the field count;
the caller supplies the input length, which always suffices). -/
def parseCsvRecordF : Nat → Str → List Str × Str
  | 0, s => ([], s)
  | fuel + 1, s =>
    match parseCsvField s with
    | (f, .comma, rest) =>
      let p := parseCsvRecordF fuel rest
      (f :: p.1, p.2)
    | (f, _, rest) => ([f], rest)

/-- All records of a file. -/
def parseCsvF : Nat → Str → List (List Str)
  | 0, _ => []
  | fuel + 1, s =>
    if s.isEmpty then []
    else
      let p := parseCsvRecordF (s.length + 1) s
      p.1 :: parseCsvF fuel p.2

/-- `csv.reader` over a whole file.  (Blank-row skipping by `DictReader`
is not modelled: the handler's own output never contains blank rows.) -/
def parseCsv (s : Str) : List (List Str) :=
  parseCsvF (s.length + 1) s

/-! ## CSVHandler: `src/data/csv_handler.py` -/
/-- The `fieldnames` list of `export_orders` (lines 23-34), also the
header row `DictReader` keys rows by. -/
def csvHeader : List Str :=
  [("Client Name").data, ("Phone").data, ("Address").data, ("Delivery Fee").data,
   ("Product(s)").data, ("Total Price").data, ("Status").data, ("Agent").data,
   ("Notes").data, ("OrderLinesJSON").data]

/-- `str()` of a cell value as the csv writer renders it: `None` becomes
the empty string, numbers their repr. -/
def csvStrOfFee : Option JNum → Str
  | none => []
  | some n => dumpJNum n

/-- The row `export_orders` writes for one order: `Order.to_dict`
(src/models/order.py lines 84-96) in `fieldnames` order, plus the
`OrderLinesJSON` cell — the JSON dump of the order lines, or the empty
string when there are none (csv_handler.py lines 39-57). -/
def orderFields (o : Order) : List Str :=
  [o.client_name, o.phone, o.address, csvStrOfFee o.delivery_fee, o.products,
   dumpJNum o.total_price, o.status, o.agent, o.notes,
   if o.order_lines.isEmpty then [] else dumpOrderLines o.order_lines]

/-- `CSVHandler.export_orders` (lines 13-61): header row then one row
per order. -/
def export_orders (orders : List Order) : Str :=
  csvFile (csvHeader :: orders.map orderFields)

/-- First position of a key in the header (`dict(zip(...))` lookup; the
handler's header has distinct keys). -/
def headerIdx (header : List Str) (key : Str) : Option Nat :=
  header.indexOf? key

/-- `row[key]` of a `DictReader` row: outer `none` when the key is not a
column at all, inner `none` for the `restval` `None` fill of a short
row. -/
def rowCell (header fields : List Str) (key : Str) : Option (Option Str) :=
  match headerIdx header key with
  | none => none
  | some i => some (fields.get? i)

/-- The `order_lines` value `import_orders` attaches to a row (lines
79-87): the parsed `OrderLinesJSON` cell when the key is present and the
cell truthy, `[]` on a missing or empty cell or a `JSONDecodeError`. -/
def rowOrderLines (header fields : List Str) : JVal :=
  match rowCell header fields (("OrderLinesJSON").data) with
  | some (some cell) =>
    if cell.isEmpty then .arr []
    else
      match jsonLoads cell with
      | some v => v
      | none => .arr []
  | _ => .arr []

/-- An imported row: the header-keyed cells and the attached
`order_lines`. -/
structure ImpRow where
  cells : List (Str × Option Str)
  order_lines : JVal

/-- One `DictReader` row with the parsed order lines attached. -/
def importRow (header fields : List Str) : ImpRow :=
  { cells := header.zip (fields.map some) ++
      (header.drop fields.length).map fun k => (k, none),
    order_lines := rowOrderLines header fields }

/-- `CSVHandler.import_orders` (lines 63-95): a failed read is logged and
re-raised (`Except.error`); otherwise the rows after the header, each
with `order_lines` attached. -/
def import_orders : ReadResult → Except Unit (List ImpRow)
  | .missing => .error ()
  | .err => .error ()
  | .ok content =>
    match parseCsv content with
    | [] => .ok []
    | header :: data => .ok (data.map (importRow header))

/-! ## Products loader file reads: `load_products`
(src/data/products_loader.py lines 10-61).  The `ReadResult` describes
the outcome of opening the catalog after the create-if-missing step:
`FileNotFoundError` hits the `pass` branch and the empty dict is
returned, any other exception is logged and likewise absorbed into the
empty dict. -/
/-- Model of Python `str.lower` on one character (ASCII case mapping). -/
def pyLowerChar (c : Char) : Char :=
  if 65 ≤ c.toNat ∧ c.toNat ≤ 90 then Char.ofNat (c.toNat + 32) else c

/-- Model of Python `str.lower`. -/
def pyLower (s : Str) : Str :=
  s.map pyLowerChar

/-- Python dict assignment on an insertion-ordered association list:
overwrite in place when the key exists, append otherwise. -/
def dictInsert (l : List (Str × ℚ)) (k : Str) (v : ℚ) : List (Str × ℚ) :=
  if l.any (fun kv => kv.1 = k) then
    l.map (fun kv => if kv.1 = k then (k, v) else kv)
  else l ++ [(k, v)]

/-- One catalog row (lines 45-54): rows with fewer than three cells are
skipped, the code is `row[0].strip().upper()`, the price
`float(row[2].strip())`, and a failed `float` skips the row. -/
def productRow (acc : List (Str × ℚ)) : List Str → List (Str × ℚ)
  | c0 :: _ :: c2 :: _ =>
    (match pyFloatOfStr (pyStrip c2) with
      | none => acc
      | some price => dictInsert acc (pyUpper (pyStrip c0)) price)
  | _ => acc

def productsOfRows (rows : List (List Str)) : List (Str × ℚ) :=
  rows.foldl productRow []

/-- The header sniff (lines 36-40): `first_row[0].lower()` is one of the
header-like tokens. -/
def headerLike (row : List Str) : Bool :=
  match row with
  | [] => false
  | c0 :: _ =>
    pyLower c0 = ("code").data || pyLower c0 = ("product").data ||
      pyLower c0 = ("sku").data

/-- `load_products` (lines 10-61): a missing file (`FileNotFoundError`
after the failed create) or a read error leaves the dict empty; otherwise
the rows, minus a sniffed header, folded into the products dict. -/
def load_products : ReadResult → List (Str × ℚ)
  | .missing => []
  | .err => []
  | .ok content =>
    match parseCsv content with
    | [] => []
    | first :: rest =>
      productsOfRows (if headerLike first then rest else first :: rest)

/-- The first character after a serialized number never extends it. -/
def numStop (s : Str) : Prop :=
  s = [] ∨ ∃ c r, s = c :: r ∧ isDigitChar c = false ∧ c ≠ '.' ∧ c ≠ 'e' ∧ c ≠ 'E'

theorem toNat_ofNat_valid {n : Nat} (h : n < 55296) : (Char.ofNat n).toNat = n := by
  have hv : n.isValidChar := Or.inl h
  simp only [Char.ofNat, hv, dite_true, Char.ofNatAux, Char.toNat, UInt32.toNat]
  simp

theorem pyUpperChar_idem (c : Char) : pyUpperChar (pyUpperChar c) = pyUpperChar c := by
  unfold pyUpperChar
  by_cases h : 97 ≤ c.toNat ∧ c.toNat ≤ 122
  · simp only [h, if_true]
    have ht : (Char.ofNat (c.toNat - 32)).toNat = c.toNat - 32 :=
      toNat_ofNat_valid (by omega)
    have : ¬ (97 ≤ (Char.ofNat (c.toNat - 32)).toNat ∧
        (Char.ofNat (c.toNat - 32)).toNat ≤ 122) := by
      rw [ht]; omega
    simp [this]
  · simp [h]

theorem pyUpper_idem (s : Str) : pyUpper (pyUpper s) = pyUpper s := by
  unfold pyUpper
  rw [List.map_map]
  apply List.map_congr_left
  intro c _
  exact pyUpperChar_idem c

/-! ## General lemmas about the string utilities -/
theorem mem_takeWhile_prop {p : Char → Bool} :
    ∀ {l : Str} {x : Char}, x ∈ l.takeWhile p → p x = true := by
  intro l
  induction l with
  | nil => intro x h; simp [List.takeWhile] at h
  | cons c rest ih =>
    intro x h
    by_cases hc : p c
    · rw [List.takeWhile_cons_of_pos hc] at h
      rcases List.mem_cons.mp h with rfl | h'
      · exact hc
      · exact ih h'
    · rw [List.takeWhile_cons_of_neg hc] at h
      simp at h

theorem pyStrip_all_space {s : Str} (h : pyStrip s = []) :
    ∀ c ∈ s, isSpaceChar c = true := by
  unfold pyStrip at h
  rw [List.reverse_eq_nil_iff] at h
  have h2 : ∀ c ∈ (s.dropWhile isSpaceChar).reverse, isSpaceChar c = true :=
    List.dropWhile_eq_nil_iff.mp h
  have h3 : ∀ c ∈ s.dropWhile isSpaceChar, isSpaceChar c = true := by
    intro c hc; exact h2 c (List.mem_reverse.mpr hc)
  intro c hc
  rw [← @List.takeWhile_append_dropWhile Char isSpaceChar s] at hc
  rcases List.mem_append.mp hc with h4 | h4
  · exact mem_takeWhile_prop h4
  · exact h3 c h4

theorem splitOnP_no_sep {p : Char → Bool} {s : Str}
    (h : ∀ c ∈ s, p c = false) : splitOnP p s = [s] := by
  induction s with
  | nil => rfl
  | cons c rest ih =>
    have hc : p c = false := h c (List.mem_cons_self c rest)
    have ih' := ih fun x hx => h x (List.mem_cons_of_mem c hx)
    unfold splitOnP
    rw [hc]
    simp [ih']

theorem mapM_some_length {α β : Type} {f : α → Option β} :
    ∀ {ts : List α} {l : List β}, ts.mapM f = some l → l.length = ts.length := by
  intro ts
  induction ts with
  | nil =>
    intro l h
    simp only [List.mapM_nil, Option.pure_def, Option.some.injEq] at h
    simp [← h]
  | cons a rest ih =>
    intro l h
    rw [List.mapM_cons] at h
    cases hf : f a with
    | none => rw [hf] at h; simp at h
    | some b =>
      rw [hf] at h
      cases hr : rest.mapM f with
      | none => rw [hr] at h; simp at h
      | some bs =>
        rw [hr] at h
        simp at h
        rw [← h]
        simp [ih hr]

theorem mapM_some_mem {α β : Type} {f : α → Option β} :
    ∀ {ts : List α} {l : List β} {e : β},
      ts.mapM f = some l → e ∈ l → ∃ t ∈ ts, f t = some e := by
  intro ts
  induction ts with
  | nil =>
    intro l e h he
    simp only [List.mapM_nil, Option.pure_def, Option.some.injEq] at h
    rw [← h] at he; simp at he
  | cons a rest ih =>
    intro l e h he
    rw [List.mapM_cons] at h
    cases hf : f a with
    | none => rw [hf] at h; simp at h
    | some b =>
      rw [hf] at h
      cases hr : rest.mapM f with
      | none => rw [hr] at h; simp at h
      | some bs =>
        rw [hr] at h
        simp at h
        rw [← h] at he
        rcases List.mem_cons.mp he with rfl | h'
        · exact ⟨a, List.mem_cons_self a rest, hf⟩
        · rcases ih hr h' with ⟨t, ht, hft⟩
          exact ⟨t, List.mem_cons_of_mem a ht, hft⟩

/-! ## Lemmas for the product-field parser (C2) -/
theorem ppfGo_eq_mapM (items : List Str) :
    ppfGo items = ((items.map pyStrip).filter fun l => !l.isEmpty).mapM parseItem := by
  induction items with
  | nil => rfl
  | cons it rest ih =>
    unfold ppfGo
    by_cases h : (pyStrip it).isEmpty
    · simp only [List.map_cons, List.filter_cons, h, Bool.not_true, if_neg]
      simp [h, ih]
    · have hb : (!(pyStrip it).isEmpty) = true := by simp [h]
      simp only [List.map_cons, List.filter_cons, hb, if_pos, List.mapM_cons]
      rw [if_neg h]
      cases hp : parseItem (pyStrip it) with
      | none => simp
      | some e =>
        rw [ih]
        cases ho : (List.filter (fun l => !List.isEmpty l) (List.map pyStrip rest)).mapM
            parseItem with
        | none => simp [ho]
        | some l => simp [ho]

theorem parseItem_code_upper {i : Str} {e : PEntry} (h : parseItem i = some e) :
    pyUpper e.code = e.code := by
  unfold parseItem at h
  cases hm : matchProduct i with
  | some p =>
    obtain ⟨code, q⟩ := p
    rw [hm] at h
    simp only [Option.some.injEq] at h
    rw [← h]
    simp [pyUpper_idem]
  | none =>
    simp only [hm] at h
    repeat' split at h
    all_goals
      first
      | (replace h := Option.some.inj h
         rw [← h]; simp [pyUpper_idem])
      | simp at h

theorem productTokens_nil_of_blank {s : Str} (h : pyStrip s = []) :
    productTokens s = [] := by
  have hall := pyStrip_all_space h
  have hnosep : ∀ c ∈ s, (fun c => c = ';' || c = ',') c = false := by
    intro c hc
    have hs := hall c hc
    simp only [Bool.or_eq_false_iff, decide_eq_false_iff_not]
    constructor
    · rintro rfl; exact absurd hs (by decide)
    · rintro rfl; exact absurd hs (by decide)
  unfold productTokens
  rw [splitOnP_no_sep hnosep]
  simp [h]

theorem parse_product_field_eq_mapM (s : Str) :
    parse_product_field s = (productTokens s).mapM parseItem := by
  unfold parse_product_field
  by_cases hs : (pyStrip s).isEmpty
  · rw [if_pos hs]
    rw [productTokens_nil_of_blank (List.isEmpty_iff.mp hs)]
    rfl
  · rw [if_neg hs]
    exact ppfGo_eq_mapM _

/-- Claim C2, counterexample: on the field `"@ --5"` the parser does not
return an entry list at all — the fallback's quantity token `"--5"`
passes `lstrip("-").isdigit()` but `int("--5")` raises an uncaught
`ValueError` (modelled as `none`), so the claim's "returns one
{code, qty} entry per non-blank token" fails on this input. -/
theorem C2_counterexample : parse_product_field (("@ --5").data) = none := by decide

/-- Claim C2 (amended): `parse_product_field` splits its input on commas
and semicolons and, unless the fallback's integer conversion raises (a
token that does not start alphanumerically whose second
whitespace-token has two or more leading minus signs but only digits
after them), returns one `{code, qty}` entry per non-blank token in
input order, code upper-cased, quantity defaulting to 1 when absent,
negative quantities accepted, duplicate codes neither merged nor
rejected; the listed examples hold.  Conjuncts: the two examples of the
claim; the characterization as a per-token `mapM` (tokens processed
independently, in order — hence no merging); one entry per non-blank
token whenever a list is returned; every returned code is upper-cased;
a negative quantity is accepted; duplicate codes are kept. -/
theorem C2_parse_product_field :
    parse_product_field (("CA x 2, TA:1").data) =
      some [⟨("CA").data, 2⟩, ⟨("TA").data, 1⟩] ∧
    parse_product_field (("CG").data) = some [⟨("CG").data, 1⟩] ∧
    (∀ s, parse_product_field s = (productTokens s).mapM parseItem) ∧
    (∀ s l, parse_product_field s = some l → l.length = (productTokens s).length) ∧
    (∀ s l e, parse_product_field s = some l → e ∈ l → pyUpper e.code = e.code) ∧
    parse_product_field (("CA x -2").data) = some [⟨("CA").data, -2⟩] ∧
    parse_product_field (("CA, CA").data) =
      some [⟨("CA").data, 1⟩, ⟨("CA").data, 1⟩] := by
  refine ⟨by decide, by decide, parse_product_field_eq_mapM, ?_, ?_, by decide, by decide⟩
  · intro s l h
    rw [parse_product_field_eq_mapM s] at h
    exact mapM_some_length h
  · intro s l e h he
    rw [parse_product_field_eq_mapM s] at h
    rcases mapM_some_mem h he with ⟨t, _, hf⟩
    exact parseItem_code_upper hf

/-- Witness for C2's amended theorem: its per-token-count conjunct
applied to the first example input. -/
theorem C2_witness :
    ([⟨("CA").data, 2⟩, ⟨("TA").data, 1⟩] : List PEntry).length =
      (productTokens (("CA x 2, TA:1").data)).length :=
  C2_parse_product_field.2.2.2.1 _ _ (by decide)

theorem validatePhoneParts_true_iff (l : List Str) :
    (validatePhoneParts l).1 = true ↔ ∀ p ∈ l, phonePartOkBool p = true := by
  induction l with
  | nil => simp [validatePhoneParts]
  | cons part rest ih =>
    have step : (validatePhoneParts (part :: rest)).1 =
        (phonePartOkBool part && (validatePhoneParts rest).1) := by
      conv_lhs => unfold validatePhoneParts
      by_cases h1 : pyIsdigit (phoneDigits (phoneClean part)) = true
      · by_cases h2 : (decide ((phoneDigits (phoneClean part)).length < 8) ||
            decide (15 < (phoneDigits (phoneClean part)).length)) = true
        · simp [phonePartOkBool, h1, h2]
        · simp [phonePartOkBool, h1, h2]
      · simp [phonePartOkBool, h1]
    rw [step]
    simp [Bool.and_eq_true, ih, List.forall_mem_cons]

theorem phonePartOkBool_iff_spec (p : Str) :
    phonePartOkBool p = true ↔ specPhonePartOk p := by
  unfold phonePartOkBool specPhonePartOk pyIsdigit
  simp only [Bool.and_eq_true, Bool.not_eq_true', Bool.or_eq_false_iff,
    decide_eq_false_iff_not, Nat.not_lt, List.all_eq_true, Bool.not_eq_false]
  constructor
  · rintro ⟨⟨_, hall⟩, h8, h15⟩
    exact ⟨hall, h8, h15⟩
  · rintro ⟨hall, h8, h15⟩
    refine ⟨⟨?_, hall⟩, h8, h15⟩
    have : phoneDigits (phoneClean p) ≠ [] := by
      intro hnil
      rw [hnil] at h8
      simp at h8
    simp [List.isEmpty_iff, this]

/-- Claim C4: `validate_phone` returns valid exactly when there is at
least one non-blank `/`-separated part and every part, after removing
spaces, dashes and parentheses and an optional leading `+`, consists
only of digits, between 8 and 15 of them; the two examples of the claim
hold.  The function is total (never raises) by construction. -/
theorem C4_validate_phone :
    (∀ phone, (validate_phone phone).1 = true ↔
      (phoneParts phone ≠ [] ∧ ∀ p ∈ phoneParts phone, specPhonePartOk p)) ∧
    (validate_phone (("034 12 345 67 / +261321234567").data)).1 = true ∧
    (validate_phone (("abc").data)).1 = false := by
  refine ⟨?_, by decide, by decide⟩
  intro phone
  unfold validate_phone
  by_cases h0 : phone.isEmpty
  · have hnil : phone = [] := List.isEmpty_iff.mp h0
    subst hnil
    have hp : phoneParts ([] : Str) = [] := by decide
    simp [hp]
  · rw [if_neg h0]
    by_cases h1 : (phoneParts phone).isEmpty
    · rw [if_pos h1]
      simp [List.isEmpty_iff.mp h1]
    · rw [if_neg h1]
      rw [validatePhoneParts_true_iff]
      constructor
      · intro hall
        refine ⟨fun hnil => h1 (List.isEmpty_iff.mpr hnil), fun p hp => ?_⟩
        exact (phonePartOkBool_iff_spec p).mp (hall p hp)
      · rintro ⟨_, hall⟩ p hp
        exact (phonePartOkBool_iff_spec p).mpr (hall p hp)

/-- Witness for C4: the main equivalence applied to the claim's valid
example, together with the concrete facts discharging it. -/
theorem C4_witness :
    (validate_phone (("034 12 345 67 / +261321234567").data)).1 = true :=
  (C4_validate_phone.1 (("034 12 345 67 / +261321234567").data)).mpr
    (by constructor
        · decide
        · intro p hp
          have : phoneParts (("034 12 345 67 / +261321234567").data) =
              [("034 12 345 67").data, ("+261321234567").data] := by decide
          rw [this] at hp
          rcases List.mem_cons.mp hp with rfl | hp'
          · exact ⟨by decide, by decide, by decide⟩
          · rcases List.mem_cons.mp hp' with rfl | hp''
            · exact ⟨by decide, by decide, by decide⟩
            · simp at hp'')

/-! ## Lemmas for the currency formatter (C5) -/
theorem roundHalfEven_intCast (m : ℤ) : roundHalfEven (m : ℚ) = m := by
  unfold roundHalfEven
  rw [Int.floor_intCast]
  norm_num

theorem mem_natDigitsF {fuel n : Nat} {c : Char} (h : c ∈ natDigitsF fuel n) :
    isDigitChar c = true := by
  induction fuel generalizing n with
  | zero => simp [natDigitsF] at h
  | succ f ih =>
    unfold natDigitsF at h
    by_cases h10 : n < 10
    · rw [if_pos h10] at h
      simp at h
      subst h
      unfold isDigitChar digitChar
      rw [toNat_ofNat_valid (by omega)]
      simp
      omega
    · rw [if_neg h10] at h
      rcases List.mem_append.mp h with h' | h'
      · exact ih h'
      · simp at h'
        subst h'
        unfold isDigitChar digitChar
        have hm : n % 10 < 10 := Nat.mod_lt _ (by norm_num)
        rw [toNat_ofNat_valid (by omega)]
        simp
        omega

theorem mem_group3 {c : Char} : ∀ {l : Str}, c ∈ group3 l → c ∈ l ∨ c = ' ' := by
  intro l
  induction l using group3.induct with
  | case1 a b c' d rest ih =>
    intro h
    simp only [group3, List.mem_cons] at h
    rcases h with rfl | rfl | rfl | rfl | h
    · exact Or.inl (by simp)
    · exact Or.inl (by simp)
    · exact Or.inl (by simp)
    · exact Or.inr rfl
    · rcases ih h with h' | h'
      · simp only [List.mem_cons] at h'
        exact Or.inl (by simp only [List.mem_cons]; tauto)
      · exact Or.inr h'
  | case2 l hne =>
    intro h
    rcases l with _ | ⟨a, _ | ⟨b, _ | ⟨c', _ | ⟨d, rest⟩⟩⟩⟩
    · exact Or.inl h
    · exact Or.inl h
    · exact Or.inl h
    · exact Or.inl h
    · exact absurd rfl (hne a b c' d rest)

theorem mem_natThousands {ds : Str} {c : Char} (h : c ∈ natThousands ds) :
    c ∈ ds ∨ c = ' ' := by
  unfold natThousands at h
  rw [List.mem_reverse] at h
  rcases mem_group3 h with h' | h'
  · exact Or.inl (List.mem_reverse.mp h')
  · exact Or.inr h'

theorem no_dot_natThousands_natDigits (n : Nat) :
    '.' ∉ natThousands (natDigits n) := by
  intro h
  rcases mem_natThousands h with h' | h'
  · have := @mem_natDigitsF (n + 1) n _ h'
    exact absurd this (by decide)
  · exact absurd h' (by decide)

theorem fcNum_intCast (m : ℤ) :
    fcNum (m : ℚ) =
      (if (m : ℚ) < 0 then ['-'] else []) ++ natThousands (natDigits (|m|).toNat) ++
        (" Ar").data := by
  simp only [fcNum]
  rw [← Int.cast_abs, roundHalfEven_intCast, sub_self, abs_zero,
    if_pos (by norm_num : (0 : ℚ) < 1 / 10000)]

theorem roundHalfEven_1000p5 : roundHalfEven (1000.5 : ℚ) = 1000 := by
  unfold roundHalfEven
  have hf : ⌊(1000.5 : ℚ)⌋ = 1000 := by norm_num [Int.floor_eq_iff]
  rw [hf]
  have h1 : ¬((1000.5 : ℚ) - ((1000 : ℤ) : ℚ) < 1 / 2) := by push_cast; norm_num
  have h2 : ¬((1 / 2 : ℚ) < (1000.5 : ℚ) - ((1000 : ℤ) : ℚ)) := by push_cast; norm_num
  rw [if_neg h1, if_neg h2, if_pos (show Even (1000 : ℤ) by decide)]

theorem fc_example_int : format_currency (.num 25000) = ("25 000 Ar").data := by
  show fcNum 25000 = ("25 000 Ar").data
  rw [show (25000 : ℚ) = ((25000 : ℤ) : ℚ) by norm_num, fcNum_intCast,
    if_neg (by norm_num : ¬(((25000 : ℤ) : ℚ) < 0))]
  decide

theorem fc_example_dec : format_currency (.num (-1000.5 : ℚ)) = ("-1 000.50 Ar").data := by
  show fcNum (-1000.5 : ℚ) = ("-1 000.50 Ar").data
  simp only [fcNum, decFmt]
  rw [show |(-1000.5 : ℚ)| = (1000.5 : ℚ) by norm_num]
  rw [roundHalfEven_1000p5]
  rw [show (1000.5 : ℚ) - ((1000 : ℤ) : ℚ) = 1 / 2 by push_cast; norm_num]
  rw [abs_of_pos (by norm_num : (0 : ℚ) < 1 / 2)]
  rw [if_neg (by norm_num : ¬((1 / 2 : ℚ) < 1 / 10000))]
  rw [show (1000.5 : ℚ) * 100 = ((100050 : ℤ) : ℚ) by push_cast; norm_num]
  rw [roundHalfEven_intCast]
  rw [if_pos (by norm_num : (-1000.5 : ℚ) < 0)]
  decide

/-- Claim C5: `format_currency` uses a space as thousands separator and
renders with two decimals only for non-integral values, a ` Ar` suffix,
and a leading `-` for negatives; non-numeric input is returned
unchanged.  Conjuncts: the claim's two examples; every numeric result
ends in ` Ar`; a negative value's result starts with `-`; an integral
value is rendered without a decimal point (so two decimal places appear
only when the value is not integral); a string whose `float()`
conversion fails is returned unchanged. -/
theorem C5_format_currency :
    format_currency (.num 25000) = ("25 000 Ar").data ∧
    format_currency (.num (-1000.5 : ℚ)) = ("-1 000.50 Ar").data ∧
    (∀ q : ℚ, ∃ body : Str, format_currency (.num q) = body ++ (" Ar").data) ∧
    (∀ q : ℚ, q < 0 → ∃ t : Str, format_currency (.num q) = '-' :: (t ++ (" Ar").data)) ∧
    (∀ n : ℤ, '.' ∉ format_currency (.num (n : ℚ))) ∧
    (∀ s : Str, pyFloatOfStr s = none → format_currency (.str s) = s) := by
  refine ⟨fc_example_int, fc_example_dec, ?_, ?_, ?_, ?_⟩
  · intro q
    exact ⟨_, rfl⟩
  · intro q hq
    simp only [format_currency, fcNum, if_pos hq]
    exact ⟨_, rfl⟩
  · intro n hmem
    simp only [format_currency, fcNum] at hmem
    rw [show |(n : ℚ)| = ((|n| : ℤ) : ℚ) by push_cast; ring] at hmem
    rw [roundHalfEven_intCast] at hmem
    rw [sub_self, abs_zero, if_pos (by norm_num : (0 : ℚ) < 1 / 10000)] at hmem
    rcases List.mem_append.mp hmem with h' | h'
    · rcases List.mem_append.mp h' with h'' | h''
      · revert h''
        split
        · simp
        · simp
      · exact no_dot_natThousands_natDigits _ h''
    · exact absurd h' (by decide)
  · intro s h
    simp [format_currency, h]

/-- Witness for C5: the non-numeric clause applied to the string
`"abc"`. -/
theorem C5_witness : format_currency (.str (("abc").data)) = ("abc").data :=
  C5_format_currency.2.2.2.2.2 (("abc").data) (by decide)

/-! ## Claim C6: `parse_numeric` -/
/-- Claim C6, counterexample: the claim says any casing of the currency
suffix is stripped, in particular that `"25000 AR"` parses to 25000; but
the code removes only the exact substrings `"Ar"` and `"ar"`, so
`"25000 AR"` cleans to `"25000AR"`, whose integer parse fails, and the
result is `None`. -/
theorem C6_counterexample : parse_numeric (("25000 AR").data) = none := by decide

theorem parse_numeric_float_example :
    parse_numeric (("1 000.50 Ar").data) = some (1000.5 : ℚ) := by
  have h : parse_numeric (("1 000.50 Ar").data) =
      some ((1 : ℚ) * (((digitsVal (("1000").data) : ℕ) : ℚ) +
        ((digitsVal (("50").data) : ℕ) : ℚ) / (10 : ℚ) ^ 2) * (10 : ℚ) ^ (0 : ℤ)) := rfl
  rw [h, show digitsVal (("1000").data) = 1000 from rfl,
    show digitsVal (("50").data) = 50 from rfl]
  push_cast
  norm_num

/-- Claim C6 (amended): `parse_numeric` strips spaces, commas, and the
exact substrings `Ar` and `ar` (so `"25000"`, `"25 000"`, `"25,000"`,
`"25000 Ar"` and `"25000 ar"` all parse to 25000, but an upper-cased
suffix as in `"25000 AR"` is not stripped and yields `None`), parses the
remainder as an integer or, when a decimal point is present, as a float,
and returns `None` on any failure rather than raising. -/
theorem C6_parse_numeric :
    parse_numeric (("25000").data) = some 25000 ∧
    parse_numeric (("25 000").data) = some 25000 ∧
    parse_numeric (("25,000").data) = some 25000 ∧
    parse_numeric (("25000 Ar").data) = some 25000 ∧
    parse_numeric (("25000 ar").data) = some 25000 ∧
    parse_numeric (("25000 AR").data) = none ∧
    parse_numeric (("1 000.50 Ar").data) = some (1000.5 : ℚ) ∧
    parse_numeric (("abc").data) = none :=
  ⟨by decide, by decide, by decide, by decide, by decide, by decide,
   parse_numeric_float_example, by decide⟩

/-! ## Claim C8: `Order.is_valid` -/
theorem empty_or_strip (a : Str) :
    (a.isEmpty || (pyStrip a).isEmpty) = (pyStrip a).isEmpty := by
  cases a with
  | nil => rfl
  | cons c l => simp [List.isEmpty_cons]

/-- Claim C8: `Order.is_valid` is true exactly when the client name,
phone and address are non-empty after stripping and the delivery fee is
present and non-negative.  The function only reads the order (it is a
pure function of the record in this model, as in the source, which
mutates nothing). -/
theorem C8_order_is_valid (o : Order) :
    o.is_valid = true ↔
      (pyStrip o.client_name ≠ [] ∧ pyStrip o.phone ≠ [] ∧ pyStrip o.address ≠ [] ∧
        ∃ f, o.delivery_fee = some f ∧ 0 ≤ f.val) := by
  unfold Order.is_valid
  rw [empty_or_strip, empty_or_strip, empty_or_strip]
  by_cases h1 : (pyStrip o.client_name).isEmpty
  · simp [h1, List.isEmpty_iff.mp h1]
  · rw [if_neg h1]
    by_cases h2 : (pyStrip o.phone).isEmpty
    · simp [h2, List.isEmpty_iff.mp h2]
    · rw [if_neg h2]
      by_cases h3 : (pyStrip o.address).isEmpty
      · simp [h3, List.isEmpty_iff.mp h3]
      · rw [if_neg h3]
        have e1 : pyStrip o.client_name ≠ [] := fun h => h1 (List.isEmpty_iff.mpr h)
        have e2 : pyStrip o.phone ≠ [] := fun h => h2 (List.isEmpty_iff.mpr h)
        have e3 : pyStrip o.address ≠ [] := fun h => h3 (List.isEmpty_iff.mpr h)
        cases hf : o.delivery_fee with
        | none => simp [e1, e2, e3]
        | some f => simp [e1, e2, e3, decide_eq_true_iff]

/-- Witness for C8: a concrete valid order. -/
theorem C8_witness :
    (Order.mk (("Alice").data) (("0341234567").data) (("Antananarivo").data)
      (some (.int 3000)) [] (.int 0) [] [] [] []).is_valid = true :=
  (C8_order_is_valid _).mpr
    ⟨by decide, by decide, by decide,
     ⟨.int 3000, rfl, by norm_num [JNum.val]⟩⟩

/-! ## Claim C9: `load_agents` never returns an empty list -/
/-- Claim C9: `AgentManager.load_agents` never returns an empty list:
a missing file, a failed read, and a file of only blank lines all yield
the five default agent names of `Config.DEFAULT_AGENTS`. -/
theorem C9_load_agents :
    (∀ r, load_agents r ≠ []) ∧
    load_agents .missing = Config.DEFAULT_AGENTS ∧
    load_agents .err = Config.DEFAULT_AGENTS ∧
    (∀ c, (∀ line ∈ splitOnP (fun ch => ch = '\n') (univNewlines c), pyStrip line = []) →
      load_agents (.ok c) = Config.DEFAULT_AGENTS) ∧
    Config.DEFAULT_AGENTS.length = 5 := by
  refine ⟨?_, rfl, rfl, ?_, by decide⟩
  · intro r
    cases r with
    | missing => decide
    | err => decide
    | ok c =>
      simp only [load_agents]
      by_cases h : (readLinesStripped c).isEmpty
      · rw [if_pos h]; decide
      · rw [if_neg h]
        exact fun hn => h (List.isEmpty_iff.mpr hn)
  · intro c hall
    have hempty : readLinesStripped c = [] := by
      unfold readLinesStripped
      rw [List.filter_eq_nil_iff]
      intro l hl
      rcases List.mem_map.mp hl with ⟨line, hline, rfl⟩
      simp [hall line hline]
    simp only [load_agents]
    rw [hempty]
    rfl

/-- Witness for C9: a file of blank lines yields the defaults. -/
theorem C9_witness : load_agents (.ok ((" \n \n").data)) = Config.DEFAULT_AGENTS :=
  C9_load_agents.2.2.2.1 ((" \n \n").data) (by decide)

/-! ## Claim C10: `get_product_price` -/
theorem dictGet_eq_none {k : Str} {ps : List (Str × ℚ)}
    (h : ∀ kv ∈ ps, kv.1 ≠ k) : dictGet k ps = none := by
  induction ps with
  | nil => rfl
  | cons kv rest ih =>
    obtain ⟨k', v⟩ := kv
    unfold dictGet
    rw [if_neg (h (k', v) (List.mem_cons_self _ _))]
    exact ih fun kv hkv => h kv (List.mem_cons_of_mem _ hkv)

/-- Claim C10: `get_product_price` upper-cases the requested code before
the lookup — so the lookup is insensitive to the case of the request
relative to the catalog's upper-cased keys — and every code whose
upper-cased form is not a key of the catalog yields 0.0 rather than an
error. -/
theorem C10_get_product_price (code : Str) (products : List (Str × ℚ)) :
    ((∀ kv ∈ products, kv.1 ≠ pyUpper code) → get_product_price code products = 0) ∧
    get_product_price code products = get_product_price (pyUpper code) products := by
  constructor
  · intro h
    unfold get_product_price
    rw [dictGet_eq_none h]
    rfl
  · unfold get_product_price
    rw [pyUpper_idem]

/-- Witness for C10: an absent code prices at zero. -/
theorem C10_witness :
    get_product_price (("zz").data) [((("CA").data), 25000)] = 0 :=
  (C10_get_product_price (("zz").data) [((("CA").data), 25000)]).1
    (by intro kv hkv
        simp only [List.mem_singleton] at hkv
        subst hkv
        decide)

/-! ## Lemmas for the address manager (C7) -/
theorem head_dropWhile_false {p : Char → Bool} :
    ∀ {l : Str} {c : Char} {r : Str}, l.dropWhile p = c :: r → p c = false := by
  intro l
  induction l with
  | nil => intro c r h; simp at h
  | cons a t ih =>
    intro c r h
    by_cases ha : p a
    · rw [List.dropWhile_cons_of_pos ha] at h
      exact ih h
    · rw [List.dropWhile_cons_of_neg ha] at h
      injection h with h1 _
      subst h1
      cases hb : p a
      · rfl
      · exact absurd hb ha

theorem dropWhile_dropWhile (p : Char → Bool) (l : Str) :
    (l.dropWhile p).dropWhile p = l.dropWhile p := by
  cases h : l.dropWhile p with
  | nil => rfl
  | cons c r =>
    have hc := head_dropWhile_false h
    rw [List.dropWhile_cons_of_neg (by simp [hc])]

theorem pyStrip_idem (s : Str) : pyStrip (pyStrip s) = pyStrip s := by
  unfold pyStrip
  have h2 : ((((s.dropWhile isSpaceChar).reverse.dropWhile isSpaceChar).reverse).dropWhile
      isSpaceChar) = ((s.dropWhile isSpaceChar).reverse.dropWhile isSpaceChar).reverse := by
    cases hu : ((s.dropWhile isSpaceChar).reverse.dropWhile isSpaceChar).reverse with
    | nil => rfl
    | cons c r =>
      have hpre : (c :: r) <+: s.dropWhile isSpaceChar := by
        have hsuf : (s.dropWhile isSpaceChar).reverse.dropWhile isSpaceChar <:+
            (s.dropWhile isSpaceChar).reverse := List.dropWhile_suffix _
        have hp := List.reverse_prefix.mpr hsuf
        rw [List.reverse_reverse] at hp
        rw [hu] at hp
        exact hp
      obtain ⟨rest, hrest⟩ := hpre
      have hX : s.dropWhile isSpaceChar = c :: (r ++ rest) := by
        rw [← hrest]
        rfl
      have hc := head_dropWhile_false hX
      rw [List.dropWhile_cons_of_neg (by simp [hc])]
  rw [h2, List.reverse_reverse, dropWhile_dropWhile]

theorem mem_pyStrip {s : Str} {c : Char} (h : c ∈ pyStrip s) : c ∈ s := by
  unfold pyStrip at h
  rw [List.mem_reverse] at h
  have h1 : c ∈ (s.dropWhile isSpaceChar).reverse := (List.dropWhile_sublist _).subset h
  rw [List.mem_reverse] at h1
  exact (List.dropWhile_sublist _).subset h1

theorem splitOnP_pieces_no_sep {p : Char → Bool} :
    ∀ {s l : Str}, l ∈ splitOnP p s → ∀ c ∈ l, p c = false := by
  intro s
  induction s with
  | nil =>
    intro l hl c hc
    simp [splitOnP] at hl
    subst hl
    simp at hc
  | cons a t ih =>
    intro l hl c hc
    unfold splitOnP at hl
    by_cases ha : p a
    · rw [if_pos ha] at hl
      rcases List.mem_cons.mp hl with rfl | hl'
      · simp at hc
      · exact ih hl' c hc
    · rw [if_neg ha] at hl
      cases hsp : splitOnP p t with
      | nil =>
        rw [hsp] at hl
        simp at hl
        subst hl
        have hca : c = a := by simpa using hc
        subst hca
        cases hb : p c
        · rfl
        · exact absurd hb ha
      | cons u us =>
        rw [hsp] at hl
        rcases List.mem_cons.mp hl with rfl | hl'
        · rcases List.mem_cons.mp hc with rfl | hc'
          · cases hb : p c
            · rfl
            · exact absurd hb ha
          · exact ih (by rw [hsp]; exact List.mem_cons_self u us) c hc'
        · exact ih (by rw [hsp]; exact List.mem_cons_of_mem u hl') c hc

theorem splitOnP_pieces_subset {p : Char → Bool} :
    ∀ {s l : Str}, l ∈ splitOnP p s → ∀ c ∈ l, c ∈ s := by
  intro s
  induction s with
  | nil =>
    intro l hl c hc
    simp [splitOnP] at hl
    subst hl
    simp at hc
  | cons a t ih =>
    intro l hl c hc
    unfold splitOnP at hl
    by_cases ha : p a
    · rw [if_pos ha] at hl
      rcases List.mem_cons.mp hl with rfl | hl'
      · simp at hc
      · exact List.mem_cons_of_mem a (ih hl' c hc)
    · rw [if_neg ha] at hl
      cases hsp : splitOnP p t with
      | nil =>
        rw [hsp] at hl
        simp at hl
        subst hl
        have hca : c = a := by simpa using hc
        subst hca
        exact List.mem_cons_self _ _
      | cons u us =>
        rw [hsp] at hl
        rcases List.mem_cons.mp hl with rfl | hl'
        · rcases List.mem_cons.mp hc with rfl | hc'
          · exact List.mem_cons_self _ _
          · exact List.mem_cons_of_mem a
              (ih (by rw [hsp]; exact List.mem_cons_self u us) c hc')
        · exact List.mem_cons_of_mem a
            (ih (by rw [hsp]; exact List.mem_cons_of_mem u hl') c hc)

theorem univNewlines_no_cr : ∀ (s : Str), '\r' ∉ univNewlines s := by
  intro s
  induction s using univNewlines.induct with
  | case1 => simp [univNewlines]
  | case2 r ih =>
    rw [show univNewlines ('\r' :: '\n' :: r) = '\n' :: univNewlines r from rfl]
    intro hmem
    rcases List.mem_cons.mp hmem with h | h
    · exact absurd h (by decide)
    · exact ih h
  | case3 r hne ih =>
    rw [univNewlines.eq_3 r hne]
    intro hmem
    rcases List.mem_cons.mp hmem with h | h
    · exact absurd h (by decide)
    · exact ih h
  | case4 c r h1 h2 ih =>
    rw [univNewlines.eq_4 c r h1 h2]
    intro hmem
    rcases List.mem_cons.mp hmem with h | h
    · exact h2 h.symm
    · exact ih h

theorem univNewlines_id : ∀ {s : Str}, '\r' ∉ s → univNewlines s = s := by
  intro s
  induction s using univNewlines.induct with
  | case1 => intro _; rfl
  | case2 r ih =>
    intro h
    exact absurd (List.mem_cons_self _ _) h
  | case3 r hne ih =>
    intro h
    exact absurd (List.mem_cons_self _ _) h
  | case4 c r h1 h2 ih =>
    intro h
    rw [univNewlines.eq_4 c r h1 h2]
    rw [ih fun hm => h (List.mem_cons_of_mem c hm)]

theorem splitOnP_append_sep {p : Char → Bool} {sep : Char} (hsep : p sep = true) :
    ∀ {l : Str} (rest : Str), (∀ c ∈ l, p c = false) →
      splitOnP p (l ++ sep :: rest) = l :: splitOnP p rest := by
  intro l
  induction l with
  | nil =>
    intro rest _
    show splitOnP p (sep :: rest) = [] :: splitOnP p rest
    rw [splitOnP]
    simp [hsep]
  | cons a t ih =>
    intro rest hall
    have ha : p a = false := hall a (List.mem_cons_self _ _)
    rw [List.cons_append]
    rw [splitOnP]
    rw [if_neg (by simp [ha])]
    rw [ih rest fun c hc => hall c (List.mem_cons_of_mem a hc)]

theorem linesToFile_cons (l : Str) (L : List Str) :
    linesToFile (l :: L) = l ++ '\n' :: linesToFile L := rfl

theorem linesToFile_no_cr : ∀ {L : List Str}, (∀ l ∈ L, '\r' ∉ l) →
    '\r' ∉ linesToFile L := by
  intro L
  induction L with
  | nil => intro _ h; simp [linesToFile] at h
  | cons l t ih =>
    intro hall hmem
    rw [linesToFile_cons] at hmem
    rcases List.mem_append.mp hmem with h | h
    · exact hall l (List.mem_cons_self _ _) h
    · rcases List.mem_cons.mp h with h' | h'
      · exact absurd h' (by decide)
      · exact ih (fun x hx => hall x (List.mem_cons_of_mem l hx)) h'

theorem splitOnP_linesToFile : ∀ {L : List Str}, (∀ l ∈ L, '\n' ∉ l) →
    splitOnP (fun c => c = '\n') (linesToFile L) = L ++ [[]] := by
  intro L
  induction L with
  | nil => intro _; rfl
  | cons l t ih =>
    intro hall
    rw [linesToFile_cons]
    rw [splitOnP_append_sep (by decide) _ (fun c hc => by
      simp only [decide_eq_false_iff_not]
      intro heq
      subst heq
      exact hall l (List.mem_cons_self _ _) hc)]
    rw [ih fun x hx => hall x (List.mem_cons_of_mem l hx)]
    rfl

theorem readLinesStripped_linesToFile {L : List Str}
    (hprop : ∀ l ∈ L, pyStrip l = l ∧ l ≠ [] ∧ '\n' ∉ l ∧ '\r' ∉ l) :
    readLinesStripped (linesToFile L) = L := by
  unfold readLinesStripped
  rw [univNewlines_id (linesToFile_no_cr fun l hl => (hprop l hl).2.2.2)]
  rw [splitOnP_linesToFile fun l hl => (hprop l hl).2.2.1]
  rw [List.map_append, List.filter_append]
  have hmap : L.map pyStrip = L := by
    calc L.map pyStrip = L.map id := List.map_congr_left fun l hl => (hprop l hl).1
    _ = L := List.map_id L
  rw [hmap]
  have hfilter : L.filter (fun l => !l.isEmpty) = L := by
    rw [List.filter_eq_self]
    intro l hl
    simp [List.isEmpty_iff, (hprop l hl).2.1]
  rw [hfilter]
  rw [show List.filter (fun l => !List.isEmpty l) (List.map pyStrip [[]]) = [] from rfl]
  exact List.append_nil L

theorem load_addresses_entry_props (r : ReadResult) :
    ∀ l ∈ load_addresses r, pyStrip l = l ∧ l ≠ [] ∧ '\n' ∉ l ∧ '\r' ∉ l := by
  intro l hl
  cases r with
  | missing => simp [load_addresses] at hl
  | err => simp [load_addresses] at hl
  | ok c =>
    simp only [load_addresses] at hl
    unfold readLinesStripped at hl
    rw [List.mem_filter] at hl
    obtain ⟨hmem, hne⟩ := hl
    rcases List.mem_map.mp hmem with ⟨line, hline, rfl⟩
    refine ⟨pyStrip_idem line, by simpa [List.isEmpty_iff] using hne, ?_, ?_⟩
    · intro hmem2
      have hin := mem_pyStrip hmem2
      have := splitOnP_pieces_no_sep hline '\n' hin
      simp at this
    · intro hmem2
      have hin := mem_pyStrip hmem2
      have hin2 := splitOnP_pieces_subset hline '\r' hin
      exact univNewlines_no_cr c hin2

/-- Claim C7, counterexample: for the non-blank address `"x\ny"` (an
address containing a newline) the save-then-load result is the two
entries `["x", "y"]`, not the single stripped address first — the claim
as stated quantifies over every non-blank address, but an embedded
newline splits into two history lines on re-reading. -/
theorem C7_counterexample :
    (save_address_list (load_addresses .missing) (("x\ny").data)).map
        (fun w => load_addresses (.ok (linesToFile w))) ≠
      some [pyStrip (("x\ny").data)] := by decide

/-- Claim C7 (amended): for every prior history and every non-blank
address `a` containing no newline or carriage-return character,
`save_address` writes — and `load_addresses` then returns — the stripped
address first, followed by the prior history with its occurrence of the
address removed (move-to-front), truncated to at most
`Config.MAX_ADDRESS_HISTORY = 200` entries; saving a blank address
writes nothing. -/
theorem C7_save_load_addresses :
    (∀ (r : ReadResult) (a : Str), pyStrip a ≠ [] → '\n' ∉ pyStrip a → '\r' ∉ pyStrip a →
      ∃ w, save_address_list (load_addresses r) a = some w ∧
        w = (pyStrip a :: (load_addresses r).erase (pyStrip a)).take
          Config.MAX_ADDRESS_HISTORY ∧
        load_addresses (.ok (linesToFile w)) = w) ∧
    (∀ (r : ReadResult) (a : Str), pyStrip a = [] →
      save_address_list (load_addresses r) a = none) := by
  constructor
  · intro r a hne hnl hncr
    have hsave : save_address_list (load_addresses r) a =
        some ((pyStrip a :: (load_addresses r).erase (pyStrip a)).take
          Config.MAX_ADDRESS_HISTORY) := by
      unfold save_address_list
      rw [if_neg (by simp [List.isEmpty_iff, hne])]
      by_cases hmem : pyStrip a ∈ load_addresses r
      · rw [if_pos hmem]
      · rw [if_neg hmem, List.erase_of_not_mem hmem]
    refine ⟨_, hsave, rfl, ?_⟩
    show load_addresses (.ok (linesToFile _)) = _
    simp only [load_addresses]
    apply readLinesStripped_linesToFile
    intro l hl
    have hsub : l ∈ pyStrip a :: (load_addresses r).erase (pyStrip a) :=
      List.take_subset _ _ hl
    rcases List.mem_cons.mp hsub with rfl | hl'
    · exact ⟨pyStrip_idem a, hne, hnl, hncr⟩
    · exact load_addresses_entry_props r l ((List.erase_sublist _ _).subset hl')
  · intro r a hblank
    unfold save_address_list
    rw [if_pos (by simp [List.isEmpty_iff, hblank])]

/-- Witness for C7's amended theorem: a concrete address saved over an
empty history. -/
theorem C7_witness :
    ∃ w, save_address_list (load_addresses .missing) (("  Tana  ").data) = some w ∧
      w = (pyStrip (("  Tana  ").data) ::
        (load_addresses .missing).erase (pyStrip (("  Tana  ").data))).take
          Config.MAX_ADDRESS_HISTORY ∧
      load_addresses (.ok (linesToFile w)) = w :=
  C7_save_load_addresses.1 .missing (("  Tana  ").data) (by decide) (by decide) (by decide)

/-! ## CSV round-trip lemmas -/
theorem bool_eq_false_of_not {b : Bool} (h : ¬ b = true) : b = false := by
  cases b
  · rfl
  · exact absurd rfl h

theorem csvNeedQuote_false_mem {f : Str} (h : csvNeedQuote f = false) :
    ∀ c ∈ f, c ≠ ',' ∧ c ≠ '"' ∧ c ≠ '\r' ∧ c ≠ '\n' := by
  intro c hc
  have h2 := List.any_eq_false.mp h c hc
  simp only [Bool.not_eq_true, Bool.or_eq_false_iff, decide_eq_false_iff_not] at h2
  exact ⟨h2.1.1.1, h2.1.1.2, h2.1.2, h2.2⟩

theorem parseUnquoted_comma :
    ∀ (f : Str) (rest : Str), (∀ c ∈ f, c ≠ ',' ∧ c ≠ '"' ∧ c ≠ '\r' ∧ c ≠ '\n') →
      parseUnquoted (f ++ ',' :: rest) = (f, .comma, rest) := by
  intro f
  induction f with
  | nil =>
    intro rest _
    simp [parseUnquoted]
  | cons c t ih =>
    intro rest hall
    obtain ⟨h1, _, h3, h4⟩ := hall c (List.mem_cons_self _ _)
    rw [List.cons_append]
    simp only [parseUnquoted]
    rw [if_neg (by simp [h1]), if_neg (by simp [h3]), if_neg (by simp [h4])]
    rw [ih rest fun x hx => hall x (List.mem_cons_of_mem c hx)]

theorem parseUnquoted_nl :
    ∀ (f : Str) (rest : Str), (∀ c ∈ f, c ≠ ',' ∧ c ≠ '"' ∧ c ≠ '\r' ∧ c ≠ '\n') →
      parseUnquoted (f ++ '\r' :: '\n' :: rest) = (f, .nl, rest) := by
  intro f
  induction f with
  | nil =>
    intro rest _
    simp [parseUnquoted]
  | cons c t ih =>
    intro rest hall
    obtain ⟨h1, _, h3, h4⟩ := hall c (List.mem_cons_self _ _)
    rw [List.cons_append]
    simp only [parseUnquoted]
    rw [if_neg (by simp [h1]), if_neg (by simp [h3]), if_neg (by simp [h4])]
    rw [ih rest fun x hx => hall x (List.mem_cons_of_mem c hx)]

theorem parseQuoted_comma :
    ∀ (f : Str) (rest : Str),
      parseQuoted (csvQuote f ++ '"' :: ',' :: rest) = (f, .comma, rest) := by
  intro f
  induction f with
  | nil =>
    intro rest
    simp [csvQuote, parseQuoted]
  | cons c t ih =>
    intro rest
    by_cases hc : c = '"'
    · subst hc
      rw [show csvQuote ('"' :: t) = '"' :: '"' :: csvQuote t by simp [csvQuote]]
      rw [List.cons_append, List.cons_append]
      simp only [parseQuoted]
      rw [if_pos trivial, if_pos trivial]
      rw [ih rest]
    · rw [show csvQuote (c :: t) = c :: csvQuote t by simp [csvQuote, hc]]
      rw [List.cons_append]
      conv_lhs => rw [parseQuoted.eq_def]
      simp only [hc, if_false]
      rw [ih rest]

theorem parseQuoted_nl :
    ∀ (f : Str) (rest : Str),
      parseQuoted (csvQuote f ++ '"' :: '\r' :: '\n' :: rest) = (f, .nl, rest) := by
  intro f
  induction f with
  | nil =>
    intro rest
    simp [csvQuote, parseQuoted]
  | cons c t ih =>
    intro rest
    by_cases hc : c = '"'
    · subst hc
      rw [show csvQuote ('"' :: t) = '"' :: '"' :: csvQuote t by simp [csvQuote]]
      rw [List.cons_append, List.cons_append]
      simp only [parseQuoted]
      rw [if_pos trivial, if_pos trivial]
      rw [ih rest]
    · rw [show csvQuote (c :: t) = c :: csvQuote t by simp [csvQuote, hc]]
      rw [List.cons_append]
      conv_lhs => rw [parseQuoted.eq_def]
      simp only [hc, if_false]
      rw [ih rest]

theorem parseCsvField_comma (f : Str) (rest : Str) :
    parseCsvField (csvField f ++ ',' :: rest) = (f, .comma, rest) := by
  unfold csvField
  by_cases hq : csvNeedQuote f
  · rw [if_pos hq]
    show parseCsvField ('"' :: (csvQuote f ++ ['"']) ++ ',' :: rest) = _
    rw [List.cons_append, List.append_assoc]
    simp only [parseCsvField]
    rw [if_pos trivial]
    simpa using parseQuoted_comma f rest
  · rw [if_neg hq]
    have hall := csvNeedQuote_false_mem (bool_eq_false_of_not hq)
    cases f with
    | nil => simp [parseUnquoted, parseCsvField]
    | cons c t =>
      rw [List.cons_append]
      simp only [parseCsvField]
      rw [if_neg (hall c (List.mem_cons_self _ _)).2.1]
      rw [← List.cons_append]
      exact parseUnquoted_comma (c :: t) rest hall

theorem parseCsvField_nl (f : Str) (rest : Str) :
    parseCsvField (csvField f ++ '\r' :: '\n' :: rest) = (f, .nl, rest) := by
  unfold csvField
  by_cases hq : csvNeedQuote f
  · rw [if_pos hq]
    show parseCsvField ('"' :: (csvQuote f ++ ['"']) ++ '\r' :: '\n' :: rest) = _
    rw [List.cons_append, List.append_assoc]
    simp only [parseCsvField]
    rw [if_pos trivial]
    simpa using parseQuoted_nl f rest
  · rw [if_neg hq]
    have hall := csvNeedQuote_false_mem (bool_eq_false_of_not hq)
    cases f with
    | nil => simp [parseUnquoted, parseCsvField]
    | cons c t =>
      rw [List.cons_append]
      simp only [parseCsvField]
      rw [if_neg (hall c (List.mem_cons_self _ _)).2.1]
      rw [← List.cons_append]
      exact parseUnquoted_nl (c :: t) rest hall

theorem csvJoin_length_ge : ∀ (fs : List Str), fs.length ≤ (csvJoin fs).length + 1 := by
  intro fs
  induction fs with
  | nil => simp [csvJoin]
  | cons f t ih =>
    cases t with
    | nil => simp [csvJoin]
    | cons g u =>
      rw [show csvJoin (f :: g :: u) = f ++ ',' :: csvJoin (g :: u) from rfl]
      simp only [List.length_cons, List.length_append] at ih ⊢
      omega

theorem csvRecord_length_ge (fs : List Str) : fs.length ≤ (csvRecord fs).length := by
  unfold csvRecord
  have h1 := csvJoin_length_ge (fs.map csvField)
  rw [List.length_map] at h1
  simp only [List.length_append]
  simp only [List.length_cons, List.length_nil]
  omega

theorem parseCsvRecordF_roundtrip :
    ∀ (fields : List Str) (rest : Str) (fuel : Nat), fields ≠ [] →
      fields.length ≤ fuel →
      parseCsvRecordF fuel (csvRecord fields ++ rest) = (fields, rest) := by
  intro fields
  induction fields with
  | nil => intro rest fuel h _; exact absurd rfl h
  | cons f t ih =>
    intro rest fuel _ hlen
    cases fuel with
    | zero => simp at hlen
    | succ m =>
      cases t with
      | nil =>
        have harr : csvRecord [f] ++ rest = csvField f ++ '\r' :: '\n' :: rest := by
          show (csvField f ++ ['\r', '\n']) ++ rest = _
          rw [List.append_assoc]
          rfl
        rw [harr]
        simp only [parseCsvRecordF]
        rw [parseCsvField_nl]
      | cons g u =>
        have harr : csvRecord (f :: g :: u) ++ rest =
            csvField f ++ ',' :: (csvRecord (g :: u) ++ rest) := by
          simp [csvRecord, csvJoin, List.append_assoc]
        rw [harr]
        simp only [parseCsvRecordF]
        rw [parseCsvField_comma]
        dsimp only
        rw [ih rest m (by simp) (by
          simp only [List.length_cons] at hlen ⊢
          omega)]

theorem csvRecord_ne_nil (fs : List Str) : csvRecord fs ≠ [] := by
  unfold csvRecord
  intro h
  rcases List.append_eq_nil.mp h with ⟨_, h2⟩
  simp at h2

theorem csvFile_length_ge : ∀ (rs : List (List Str)), rs.length ≤ (csvFile rs).length := by
  intro rs
  induction rs with
  | nil => simp [csvFile]
  | cons r t ih =>
    have h : csvFile (r :: t) = csvRecord r ++ csvFile t := by simp [csvFile]
    rw [h]
    simp only [List.length_cons, List.length_append]
    have h2 : 1 ≤ (csvRecord r).length := by
      have := csvRecord_ne_nil r
      cases hr : csvRecord r with
      | nil => exact absurd hr this
      | cons a b => simp
    omega

theorem parseCsvF_roundtrip :
    ∀ (rs : List (List Str)) (fuel : Nat), (∀ r ∈ rs, r ≠ []) → rs.length ≤ fuel →
      parseCsvF fuel (csvFile rs) = rs := by
  intro rs
  induction rs with
  | nil =>
    intro fuel _ _
    cases fuel with
    | zero => rfl
    | succ m => simp [parseCsvF, csvFile]
  | cons r t ih =>
    intro fuel hall hlen
    cases fuel with
    | zero => simp at hlen
    | succ m =>
      have hfile : csvFile (r :: t) = csvRecord r ++ csvFile t := by simp [csvFile]
      simp only [parseCsvF]
      rw [hfile]
      rw [if_neg (by
        simp only [List.isEmpty_iff, List.append_eq_nil]
        intro hcontra
        exact csvRecord_ne_nil r hcontra.1)]
      rw [parseCsvRecordF_roundtrip r (csvFile t) _ (hall r (List.mem_cons_self _ _)) (by
        have h1 := csvRecord_length_ge r
        simp only [List.length_append]
        omega)]
      rw [ih m (fun x hx => hall x (List.mem_cons_of_mem r hx)) (by
        simp only [List.length_cons] at hlen
        omega)]

theorem parseCsv_roundtrip (rs : List (List Str)) (hall : ∀ r ∈ rs, r ≠ []) :
    parseCsv (csvFile rs) = rs := by
  unfold parseCsv
  exact parseCsvF_roundtrip rs _ hall (by
    have := csvFile_length_ge rs
    omega)

/-! ## JSON round-trip lemmas: digits and numbers -/
theorem digitsVal_append_singleton (xs : Str) (c : Char) :
    digitsVal (xs ++ [c]) = digitsVal xs * 10 + (c.toNat - 48) := by
  unfold digitsVal
  rw [List.foldl_append]
  rfl

theorem digitsVal_natDigitsF :
    ∀ (fuel n : Nat), n < fuel → digitsVal (natDigitsF fuel n) = n := by
  intro fuel
  induction fuel with
  | zero => intro n h; omega
  | succ f ih =>
    intro n h
    unfold natDigitsF
    by_cases h10 : n < 10
    · rw [if_pos h10]
      unfold digitsVal digitChar
      simp only [List.foldl_cons, List.foldl_nil]
      rw [toNat_ofNat_valid (by omega)]
      omega
    · rw [if_neg h10]
      rw [digitsVal_append_singleton]
      have hdiv : n / 10 < f := by omega
      rw [ih (n / 10) hdiv]
      unfold digitChar
      rw [toNat_ofNat_valid (by omega)]
      have : 48 + n % 10 - 48 = n % 10 := by omega
      rw [this]
      omega

theorem digitsVal_natDigits (n : Nat) : digitsVal (natDigits n) = n :=
  digitsVal_natDigitsF (n + 1) n (by omega)

theorem natDigitsF_ne_nil (fuel n : Nat) (h : n < fuel) : natDigitsF fuel n ≠ [] := by
  cases fuel with
  | zero => omega
  | succ f =>
    unfold natDigitsF
    by_cases h10 : n < 10
    · rw [if_pos h10]; simp
    · rw [if_neg h10]
      intro hcontra
      rcases List.append_eq_nil.mp hcontra with ⟨_, h2⟩
      simp at h2

theorem natDigits_ne_nil (n : Nat) : natDigits n ≠ [] :=
  natDigitsF_ne_nil (n + 1) n (by omega)

theorem natDigitsF_head_ne_zero :
    ∀ (fuel n : Nat), 0 < n → n < fuel → ∀ c t, natDigitsF fuel n = c :: t → c ≠ '0' := by
  intro fuel
  induction fuel with
  | zero => intro n _ h; omega
  | succ f ih =>
    intro n hpos h c t heq
    unfold natDigitsF at heq
    by_cases h10 : n < 10
    · rw [if_pos h10] at heq
      injection heq with h1 _
      subst h1
      unfold digitChar
      intro hcontra
      have h2 := congrArg Char.toNat hcontra
      rw [toNat_ofNat_valid (by omega)] at h2
      rw [show ('0').toNat = 48 from rfl] at h2
      omega
    · rw [if_neg h10] at heq
      have hdiv : n / 10 < f := by omega
      have hdivpos : 0 < n / 10 := by
        have : 10 ≤ n := by omega
        exact Nat.div_pos this (by norm_num)
      cases hrec : natDigitsF f (n / 10) with
      | nil => exact absurd hrec (natDigitsF_ne_nil f (n / 10) hdiv)
      | cons c2 t2 =>
        rw [hrec] at heq
        rw [List.cons_append] at heq
        injection heq with h1 _
        subst h1
        exact ih (n / 10) hdivpos hdiv c2 t2 hrec

theorem natDigits_head_ne_zero {n : Nat} (hpos : 0 < n) {c : Char} {t : Str}
    (h : natDigits n = c :: t) : c ≠ '0' :=
  natDigitsF_head_ne_zero (n + 1) n hpos (by omega) c t h

theorem natDigitsF_length_le :
    ∀ (fuel n k : Nat), n < 10 ^ k → 0 < k → (natDigitsF fuel n).length ≤ k := by
  intro fuel
  induction fuel with
  | zero => intro n k _ _; simp [natDigitsF]
  | succ f ih =>
    intro n k hk hkpos
    unfold natDigitsF
    by_cases h10 : n < 10
    · rw [if_pos h10]; simpa using hkpos
    · rw [if_neg h10]
      rw [List.length_append]
      have hk2 : 2 ≤ k := by
        by_contra hcon
        have : k = 1 := by omega
        subst this
        simp at hk
        omega
      have hdivk : n / 10 < 10 ^ (k - 1) := by
        rw [Nat.div_lt_iff_lt_mul (by norm_num : (0 : Nat) < 10)]
        have h2 : 10 ^ (k - 1) * 10 = 10 ^ k := by
          rw [← pow_succ]
          congr 1
          omega
        omega
      have hlen := ih (n / 10) (k - 1) hdivk (by omega)
      simp only [List.length_cons, List.length_nil]
      omega

theorem takeWhile_all_append {p : Char → Bool} :
    ∀ {A : Str} (rest : Str), (∀ c ∈ A, p c = true) →
      (rest = [] ∨ ∃ c r, rest = c :: r ∧ p c = false) →
      (A ++ rest).takeWhile p = A ∧ (A ++ rest).dropWhile p = rest := by
  intro A
  induction A with
  | nil =>
    intro rest _ hstop
    constructor
    · rcases hstop with rfl | ⟨c, r, rfl, hc⟩
      · rfl
      · simp [List.takeWhile_cons, hc]
    · rcases hstop with rfl | ⟨c, r, rfl, hc⟩
      · rfl
      · simp [List.dropWhile_cons, hc]
  | cons a t ih =>
    intro rest hall hstop
    have ha := hall a (List.mem_cons_self _ _)
    obtain ⟨h1, h2⟩ := ih rest (fun c hc => hall c (List.mem_cons_of_mem _ hc)) hstop
    constructor
    · rw [List.cons_append, List.takeWhile_cons_of_pos ha, h1]
    · rw [List.cons_append, List.dropWhile_cons_of_pos ha, h2]

theorem numStop_digit {s : Str} (h : numStop s) :
    s = [] ∨ ∃ c r, s = c :: r ∧ isDigitChar c = false := by
  rcases h with rfl | ⟨c, r, rfl, h1, _⟩
  · exact Or.inl rfl
  · exact Or.inr ⟨c, r, rfl, h1⟩

theorem natDigits_all_digit (n : Nat) : ∀ c ∈ natDigits n, isDigitChar c = true :=
  fun _ hc => mem_natDigitsF hc

theorem padDigits_all_digit (n e : Nat) : ∀ c ∈ padDigits n e, isDigitChar c = true := by
  intro c hc
  unfold padDigits at hc
  rcases List.mem_append.mp hc with h | h
  · have := List.eq_of_mem_replicate h
    subst this
    decide
  · exact mem_natDigitsF h

theorem natDigits_length_le {n e : Nat} (h : n < 10 ^ e) (he : 0 < e) :
    (natDigits n).length ≤ e :=
  natDigitsF_length_le (n + 1) n e h he

theorem padDigits_length {n e : Nat} (h : n < 10 ^ e) (he : 0 < e) :
    (padDigits n e).length = e := by
  unfold padDigits
  rw [List.length_append, List.length_replicate]
  have := natDigits_length_le h he
  omega

theorem digitsVal_padDigits (n e : Nat) : digitsVal (padDigits n e) = n := by
  unfold padDigits digitsVal
  rw [List.foldl_append]
  have hrep : ∀ k, List.foldl (fun a c => a * 10 + (c.toNat - 48)) 0
      (List.replicate k '0') = 0 := by
    intro k
    induction k with
    | zero => rfl
    | succ m ih =>
      rw [List.replicate_succ, List.foldl_cons]
      have : (0 : Nat) * 10 + (('0').toNat - 48) = 0 := by decide
      rw [this, ih]
  rw [hrep]
  exact digitsVal_natDigits n

theorem parseJIntPart_roundtrip (n : Nat) (rest : Str)
    (hstop : rest = [] ∨ ∃ c r, rest = c :: r ∧ isDigitChar c = false) :
    parseJIntPart (natDigits n ++ rest) = some (n, rest) := by
  by_cases hn : n = 0
  · subst hn
    rw [show natDigits 0 = ['0'] from rfl]
    show parseJIntPart ('0' :: rest) = _
    simp [parseJIntPart]
  · cases hd : natDigits n with
    | nil => exact absurd hd (natDigits_ne_nil n)
    | cons c t =>
      have hcdig : isDigitChar c = true :=
        natDigits_all_digit n c (by rw [hd]; exact List.mem_cons_self _ _)
      have hc0 : c ≠ '0' := natDigits_head_ne_zero (by omega) hd
      have hall : ∀ x ∈ c :: t, isDigitChar x = true := by
        intro x hx
        rw [← hd] at hx
        exact natDigits_all_digit n x hx
      obtain ⟨h1, h2⟩ := @takeWhile_all_append _ (c :: t) rest hall hstop
      rw [List.cons_append]
      simp only [parseJIntPart]
      rw [if_neg hc0, if_pos hcdig]
      rw [← List.cons_append, h1, h2]
      have hval : digitsVal (c :: t) = n := by
        rw [← hd]
        exact digitsVal_natDigits n
      rw [hval]

theorem parseFrac_pad (n e : Nat) (he : 0 < e) (hlt : n < 10 ^ e) (rest : Str)
    (hstop : rest = [] ∨ ∃ c r, rest = c :: r ∧ isDigitChar c = false) :
    parseFrac ('.' :: (padDigits n e ++ rest)) = some (some (n, e), rest) := by
  simp only [parseFrac]
  rw [if_pos trivial]
  obtain ⟨h1, h2⟩ := takeWhile_all_append rest (padDigits_all_digit n e) hstop
  rw [h1, h2]
  rw [if_neg (by
    simp only [List.isEmpty_iff]
    intro hcon
    have := padDigits_length hlt he
    rw [hcon] at this
    simp at this
    omega)]
  rw [digitsVal_padDigits, padDigits_length hlt he]

theorem parseFrac_stop (rest : Str)
    (hstop : rest = [] ∨ ∃ c r, rest = c :: r ∧ c ≠ '.') :
    parseFrac rest = some (none, rest) := by
  rcases hstop with rfl | ⟨c, r, rfl, hc⟩
  · rfl
  · simp only [parseFrac]
    rw [if_neg hc]

theorem parseExpJ_stop (rest : Str)
    (hstop : rest = [] ∨ ∃ c r, rest = c :: r ∧ c ≠ 'e' ∧ c ≠ 'E') :
    parseExpJ rest = some (none, rest) := by
  rcases hstop with rfl | ⟨c, r, rfl, hc1, hc2⟩
  · rfl
  · simp only [parseExpJ]
    rw [if_neg (by simp [hc1, hc2])]

theorem numStop_not_dot {s : Str} (h : numStop s) :
    s = [] ∨ ∃ c r, s = c :: r ∧ c ≠ '.' := by
  rcases h with rfl | ⟨c, r, rfl, _, h2, _⟩
  · exact Or.inl rfl
  · exact Or.inr ⟨c, r, rfl, h2⟩

theorem numStop_not_exp {s : Str} (h : numStop s) :
    s = [] ∨ ∃ c r, s = c :: r ∧ c ≠ 'e' ∧ c ≠ 'E' := by
  rcases h with rfl | ⟨c, r, rfl, _, _, h3, h4⟩
  · exact Or.inl rfl
  · exact Or.inr ⟨c, r, rfl, h3, h4⟩

theorem parseJNumAbs_nat (n : Nat) (rest : Str) (hstop : numStop rest) :
    parseJNumAbs (natDigits n ++ rest) = some (.int (n : Int), rest) := by
  unfold parseJNumAbs
  rw [parseJIntPart_roundtrip n rest (numStop_digit hstop)]
  dsimp only
  rw [parseFrac_stop rest (numStop_not_dot hstop)]
  dsimp only
  rw [parseExpJ_stop rest (numStop_not_exp hstop)]

theorem parseJNumAbs_dec (a : Nat) (e : Nat) (he : 0 < e) (rest : Str)
    (hstop : numStop rest) :
    parseJNumAbs ((natDigits (a / 10 ^ e) ++ '.' :: padDigits (a % 10 ^ e) e) ++ rest) =
      some (.dec (a : Int) e, rest) := by
  rw [List.append_assoc, List.cons_append]
  unfold parseJNumAbs
  rw [parseJIntPart_roundtrip (a / 10 ^ e) ('.' :: (padDigits (a % 10 ^ e) e ++ rest))
    (Or.inr ⟨'.', _, rfl, by decide⟩)]
  dsimp only
  rw [parseFrac_pad (a % 10 ^ e) e he (Nat.mod_lt _ (Nat.pos_pow_of_pos e (by norm_num)))
    rest (numStop_digit hstop)]
  dsimp only
  rw [parseExpJ_stop rest (numStop_not_exp hstop)]
  dsimp only
  have harith : a / 10 ^ e * 10 ^ e + a % 10 ^ e = a := by
    rw [mul_comm]
    exact Nat.div_add_mod a (10 ^ e)
  rw [if_neg (by omega), harith]

theorem digit_ne_minus {c : Char} (h : isDigitChar c = true) : c ≠ '-' := by
  intro hcon
  subst hcon
  simp [isDigitChar] at h

theorem parseJNum_intDumps (k : Int) (rest : Str) (hstop : numStop rest) :
    parseJNum (intDumps k ++ rest) = some (.int k, rest) := by
  unfold intDumps
  by_cases hk : k < 0
  · rw [if_pos hk, List.cons_append]
    simp only [parseJNum]
    rw [if_pos trivial]
    rw [parseJNumAbs_nat (-k).toNat rest hstop]
    simp only [Option.map_some, jnumNeg]
    have : (((-k).toNat : Int)) = -k := Int.toNat_of_nonneg (by omega)
    rw [this]
    simp
  · rw [if_neg hk]
    cases hd : natDigits k.toNat with
    | nil => exact absurd hd (natDigits_ne_nil _)
    | cons c t =>
      have hcdig : isDigitChar c = true := by
        apply natDigits_all_digit k.toNat c
        rw [hd]
        exact List.mem_cons_self _ _
      rw [List.cons_append]
      simp only [parseJNum]
      rw [if_neg (digit_ne_minus hcdig)]
      rw [← List.cons_append, ← hd]
      rw [parseJNumAbs_nat k.toNat rest hstop]
      have : ((k.toNat : Int)) = k := Int.toNat_of_nonneg (by omega)
      rw [this]

theorem decDump_pos_shape (m : Int) (e : Nat) (he : 0 < e) (hm : ¬ m < 0) :
    decDump m e = natDigits (m.natAbs / 10 ^ e) ++ '.' :: padDigits (m.natAbs % 10 ^ e) e := by
  unfold decDump
  rw [if_neg (by omega), if_neg hm]
  rfl

theorem decDump_neg_shape (m : Int) (e : Nat) (he : 0 < e) (hm : m < 0) :
    decDump m e =
      '-' :: (natDigits (m.natAbs / 10 ^ e) ++ '.' :: padDigits (m.natAbs % 10 ^ e) e) := by
  unfold decDump
  rw [if_neg (by omega), if_pos hm]
  rfl

theorem parseJNum_decDump (m : Int) (e : Nat) (he : 0 < e) (rest : Str)
    (hstop : numStop rest) :
    parseJNum (decDump m e ++ rest) = some (.dec m e, rest) := by
  by_cases hm : m < 0
  · rw [decDump_neg_shape m e he hm, List.cons_append]
    simp only [parseJNum]
    rw [if_pos trivial]
    rw [parseJNumAbs_dec m.natAbs e he rest hstop]
    simp only [Option.map_some, jnumNeg]
    have : ((m.natAbs : Int)) = -m := by omega
    rw [this]
    simp
  · rw [decDump_pos_shape m e he hm]
    cases hd : natDigits (m.natAbs / 10 ^ e) with
    | nil => exact absurd hd (natDigits_ne_nil _)
    | cons c t =>
      have hcdig : isDigitChar c = true := by
        apply natDigits_all_digit _ c
        rw [hd]
        exact List.mem_cons_self _ _
      rw [List.append_assoc, List.cons_append]
      simp only [parseJNum]
      rw [if_neg (digit_ne_minus hcdig)]
      have harg : c :: (t ++ ('.' :: padDigits (m.natAbs % 10 ^ e) e ++ rest)) =
          (natDigits (m.natAbs / 10 ^ e) ++ '.' :: padDigits (m.natAbs % 10 ^ e) e) ++
            rest := by
        rw [hd]
        simp [List.append_assoc]
      rw [harg]
      rw [parseJNumAbs_dec m.natAbs e he rest hstop]
      have hcast : ((m.natAbs : Int)) = m := by omega
      rw [hcast]

theorem hexVal_hexDigit {n : Nat} (h : n < 16) : hexVal (hexDigit n) = some n := by
  unfold hexDigit
  by_cases h10 : n < 10
  · rw [if_pos h10]
    unfold hexVal
    rw [toNat_ofNat_valid (show 48 + n < 55296 by omega)]
    rw [if_pos (by omega)]
    simp only [Option.some.injEq]
    omega
  · rw [if_neg h10]
    unfold hexVal
    rw [toNat_ofNat_valid (show 87 + n < 55296 by omega)]
    rw [if_neg (by omega), if_pos (by omega)]
    simp only [Option.some.injEq]
    omega

theorem parseJStr_close (r : Str) : parseJStr ('"' :: r) = some ([], r) := by
  conv_lhs => rw [parseJStr.eq_def]
  split
  next heq => exact absurd heq (by simp)
  next c' r' heq =>
    obtain ⟨hc, hr⟩ : '"' = c' ∧ r = r' := by
      injection heq with a b
      exact ⟨a, b⟩
    subst hc
    subst hr
    rw [if_pos rfl]

theorem parseJStr_raw (c : Char) (h1 : ¬ c = '"') (h2 : ¬ c = '\\')
    (h8 : ¬ c.toNat < 32) (Y : Str) :
    parseJStr (c :: Y) = (parseJStr Y).map fun p => (c :: p.1, p.2) := by
  conv_lhs => rw [parseJStr.eq_def]
  split
  next heq => exact absurd heq (by simp)
  next c' r heq =>
    obtain ⟨hc, hr⟩ : c = c' ∧ Y = r := by
      injection heq with a b
      exact ⟨a, b⟩
    subst hc
    subst hr
    rw [if_neg h1, if_neg h2, if_neg h8]

theorem parseJStr_esc (e ch : Char)
    (hch : (if e = '"' then some '"' else if e = '\\' then some '\\'
      else if e = '/' then some '/' else if e = 'n' then some '\n'
      else if e = 't' then some '\t' else if e = 'r' then some '\r'
      else if e = 'b' then some '\x08' else if e = 'f' then some '\x0c'
      else none) = some ch) (Y : Str) :
    parseJStr ('\\' :: e :: Y) = (parseJStr Y).map fun p => (ch :: p.1, p.2) := by
  conv_lhs => rw [parseJStr.eq_def]
  split
  next heq => exact absurd heq (by simp)
  next c' r heq =>
    obtain ⟨hc, hr⟩ : '\\' = c' ∧ e :: Y = r := by
      injection heq with a b
      exact ⟨a, b⟩
    subst hc
    subst hr
    rw [if_neg (by decide), if_pos rfl]
    dsimp only
    by_cases h1 : e = '"'
    · subst h1
      rw [if_pos rfl]
      rw [if_pos rfl] at hch
      cases hch
      rfl
    · rw [if_neg h1]
      rw [if_neg h1] at hch
      by_cases h2 : e = '\\'
      · subst h2
        rw [if_pos rfl]
        rw [if_pos rfl] at hch
        cases hch
        rfl
      · rw [if_neg h2]
        rw [if_neg h2] at hch
        by_cases h3 : e = '/'
        · subst h3
          rw [if_pos rfl]
          rw [if_pos rfl] at hch
          cases hch
          rfl
        · rw [if_neg h3]
          rw [if_neg h3] at hch
          by_cases h4 : e = 'n'
          · subst h4
            rw [if_pos rfl]
            rw [if_pos rfl] at hch
            cases hch
            rfl
          · rw [if_neg h4]
            rw [if_neg h4] at hch
            by_cases h5 : e = 't'
            · subst h5
              rw [if_pos rfl]
              rw [if_pos rfl] at hch
              cases hch
              rfl
            · rw [if_neg h5]
              rw [if_neg h5] at hch
              by_cases h6 : e = 'r'
              · subst h6
                rw [if_pos rfl]
                rw [if_pos rfl] at hch
                cases hch
                rfl
              · rw [if_neg h6]
                rw [if_neg h6] at hch
                by_cases h7 : e = 'b'
                · subst h7
                  rw [if_pos rfl]
                  rw [if_pos rfl] at hch
                  cases hch
                  rfl
                · rw [if_neg h7]
                  rw [if_neg h7] at hch
                  by_cases h8 : e = 'f'
                  · subst h8
                    rw [if_pos rfl]
                    rw [if_pos rfl] at hch
                    cases hch
                    rfl
                  · rw [if_neg h8] at hch
                    exact absurd hch (by simp)

theorem parseJStr_unicode (a b : Nat) (ha : a < 16) (hb : b < 16) (X : Str) :
    parseJStr ('\\' :: 'u' :: '0' :: '0' :: hexDigit a :: hexDigit b :: X) =
      (parseJStr X).map fun p => (Char.ofNat (a * 16 + b) :: p.1, p.2) := by
  conv_lhs => rw [parseJStr.eq_def]
  split
  next heq => exact absurd heq (by simp)
  next c' r heq =>
    obtain ⟨hc, hr⟩ : '\\' = c' ∧ 'u' :: '0' :: '0' :: hexDigit a :: hexDigit b :: X = r := by
      injection heq with x y
      exact ⟨x, y⟩
    subst hc
    subst hr
    rw [if_neg (by decide), if_pos rfl]
    dsimp only
    rw [if_neg (by decide), if_neg (by decide), if_neg (by decide), if_neg (by decide),
      if_neg (by decide), if_neg (by decide), if_neg (by decide), if_neg (by decide),
      if_pos rfl]
    rw [show hexVal '0' = some 0 from rfl, hexVal_hexDigit ha, hexVal_hexDigit hb]
    dsimp only
    norm_num

theorem parseJStr_roundtrip : ∀ (s : Str) (rest : Str),
    parseJStr (jsonEscape s ++ '"' :: rest) = some (s, rest) := by
  intro s
  induction s with
  | nil =>
    intro rest
    show parseJStr ('"' :: rest) = _
    exact parseJStr_close rest
  | cons c t ih =>
    intro rest
    have hesc : jsonEscape (c :: t) ++ '"' :: rest =
        jsonEscapeChar c ++ (jsonEscape t ++ '"' :: rest) := by
      simp [jsonEscape, List.append_assoc]
    rw [hesc]
    unfold jsonEscapeChar
    by_cases h1 : c = '"'
    · subst h1
      rw [if_pos rfl]
      rw [show (['\\', '"'] : Str) ++ (jsonEscape t ++ '"' :: rest) =
        '\\' :: '"' :: (jsonEscape t ++ '"' :: rest) from rfl]
      rw [parseJStr_esc '"' '"' (by decide) _, ih rest]
      rfl
    · rw [if_neg h1]
      by_cases h2 : c = '\\'
      · subst h2
        rw [if_pos rfl]
        rw [show (['\\', '\\'] : Str) ++ (jsonEscape t ++ '"' :: rest) =
          '\\' :: '\\' :: (jsonEscape t ++ '"' :: rest) from rfl]
        rw [parseJStr_esc '\\' '\\' (by decide) _, ih rest]
        rfl
      · rw [if_neg h2]
        by_cases h3 : c = '\n'
        · subst h3
          rw [if_pos rfl]
          rw [show (['\\', 'n'] : Str) ++ (jsonEscape t ++ '"' :: rest) =
            '\\' :: 'n' :: (jsonEscape t ++ '"' :: rest) from rfl]
          rw [parseJStr_esc 'n' '\n' (by decide) _, ih rest]
          rfl
        · rw [if_neg h3]
          by_cases h4 : c = '\t'
          · subst h4
            rw [if_pos rfl]
            rw [show (['\\', 't'] : Str) ++ (jsonEscape t ++ '"' :: rest) =
              '\\' :: 't' :: (jsonEscape t ++ '"' :: rest) from rfl]
            rw [parseJStr_esc 't' '\t' (by decide) _, ih rest]
            rfl
          · rw [if_neg h4]
            by_cases h5 : c = '\r'
            · subst h5
              rw [if_pos rfl]
              rw [show (['\\', 'r'] : Str) ++ (jsonEscape t ++ '"' :: rest) =
                '\\' :: 'r' :: (jsonEscape t ++ '"' :: rest) from rfl]
              rw [parseJStr_esc 'r' '\r' (by decide) _, ih rest]
              rfl
            · rw [if_neg h5]
              by_cases h6 : c = '\x08'
              · subst h6
                rw [if_pos rfl]
                rw [show (['\\', 'b'] : Str) ++ (jsonEscape t ++ '"' :: rest) =
                  '\\' :: 'b' :: (jsonEscape t ++ '"' :: rest) from rfl]
                rw [parseJStr_esc 'b' '\x08' (by decide) _, ih rest]
                rfl
              · rw [if_neg h6]
                by_cases h7 : c = '\x0c'
                · subst h7
                  rw [if_pos rfl]
                  rw [show (['\\', 'f'] : Str) ++ (jsonEscape t ++ '"' :: rest) =
                    '\\' :: 'f' :: (jsonEscape t ++ '"' :: rest) from rfl]
                  rw [parseJStr_esc 'f' '\x0c' (by decide) _, ih rest]
                  rfl
                · rw [if_neg h7]
                  by_cases h8 : c.toNat < 32
                  · rw [if_pos h8]
                    rw [show (['\\', 'u', '0', '0', hexDigit (c.toNat / 16),
                        hexDigit (c.toNat % 16)] : Str) ++ (jsonEscape t ++ '"' :: rest) =
                      '\\' :: 'u' :: '0' :: '0' :: hexDigit (c.toNat / 16) ::
                        hexDigit (c.toNat % 16) :: (jsonEscape t ++ '"' :: rest) from rfl]
                    rw [parseJStr_unicode (c.toNat / 16) (c.toNat % 16) (by omega)
                      (Nat.mod_lt _ (by norm_num)) _]
                    rw [ih rest]
                    have harith : c.toNat / 16 * 16 + c.toNat % 16 = c.toNat := by
                      rw [mul_comm]
                      exact Nat.div_add_mod c.toNat 16
                    rw [harith, Char.ofNat_toNat]
                    rfl
                  · rw [if_neg h8]
                    rw [show ([c] : Str) ++ (jsonEscape t ++ '"' :: rest) =
                      c :: (jsonEscape t ++ '"' :: rest) from rfl]
                    rw [parseJStr_raw c h1 h2 h8 _, ih rest]
                    rfl

/-! ## JSON round-trip lemmas: `json.loads (json.dumps order_lines_data)`
recovers the order-lines value the csv handler wrote. -/
theorem skipWs_nonws (c : Char) (r : Str) (h : isJsonWs c = false) :
    skipWs (c :: r) = c :: r := by
  simp [skipWs, List.dropWhile, h]

theorem skipWs_space (r : Str) : skipWs (' ' :: r) = skipWs r := by
  simp [skipWs, List.dropWhile]
  rfl

theorem numHead_ne (c : Char) (hc : c = '-' ∨ isDigitChar c = true) (d : Char)
    (hd : isDigitChar d = false) (hm : ¬ d = '-') : ¬ c = d := by
  intro he
  subst he
  rcases hc with rfl | hdig
  · exact hm rfl
  · rw [hd] at hdig
    exact Bool.noConfusion hdig

theorem intDumps_head (n : Int) :
    ∃ c t, intDumps n = c :: t ∧ (c = '-' ∨ isDigitChar c = true) := by
  unfold intDumps
  by_cases hn : n < 0
  · rw [if_pos hn]
    exact ⟨'-', _, rfl, Or.inl rfl⟩
  · rw [if_neg hn]
    cases hd : natDigits n.toNat with
    | nil => exact absurd hd (natDigits_ne_nil _)
    | cons c t =>
      refine ⟨c, t, rfl, Or.inr ?_⟩
      exact natDigits_all_digit _ c (hd ▸ List.mem_cons_self _ _)

theorem decDump_head (m : Int) (e : Nat) (he : 0 < e) :
    ∃ c t, decDump m e = c :: t ∧ (c = '-' ∨ isDigitChar c = true) := by
  by_cases hm : m < 0
  · rw [decDump_neg_shape m e he hm]
    exact ⟨'-', _, rfl, Or.inl rfl⟩
  · rw [decDump_pos_shape m e he hm]
    cases hd : natDigits (m.natAbs / 10 ^ e) with
    | nil => exact absurd hd (natDigits_ne_nil _)
    | cons c t =>
      refine ⟨c, t ++ '.' :: padDigits (m.natAbs % 10 ^ e) e, rfl, Or.inr ?_⟩
      · exact natDigits_all_digit _ c (hd ▸ List.mem_cons_self _ _)

theorem parseJVal_jnum (f : Nat) (s d rest : Str) (v : JNum)
    (hhead : ∃ c t, d = c :: t ∧ (c = '-' ∨ isDigitChar c = true))
    (hnum : parseJNum (d ++ rest) = some (v, rest))
    (hs : skipWs s = d ++ rest) :
    parseJVal (f + 1) s = some (.jnum v, rest) := by
  obtain ⟨c, t, rfl, hc⟩ := hhead
  rw [parseJVal.eq_def]
  dsimp only
  rw [hs, List.cons_append]
  dsimp only
  rw [if_neg (numHead_ne c hc '"' (by decide) (by decide)),
    if_neg (numHead_ne c hc '[' (by decide) (by decide)),
    if_neg (numHead_ne c hc '\x7b' (by decide) (by decide)),
    if_neg (numHead_ne c hc 't' (by decide) (by decide)),
    if_neg (numHead_ne c hc 'f' (by decide) (by decide)),
    if_neg (numHead_ne c hc 'n' (by decide) (by decide))]
  rw [← List.cons_append, hnum]
  rfl

theorem parseJVal_str (f : Nat) (s : Str) (k : Str) (rest : Str)
    (hs : skipWs s = dumpStr k ++ rest) :
    parseJVal (f + 1) s = some (.str k, rest) := by
  rw [parseJVal.eq_def]
  dsimp only
  rw [hs]
  rw [show dumpStr k ++ rest = '"' :: (jsonEscape k ++ '"' :: rest) by
    simp [dumpStr, List.append_assoc]]
  dsimp only
  rw [if_pos rfl, parseJStr_roundtrip k rest]
  rfl

theorem parseJMembers_last (f : Nat) (k : Str) (v : JVal) (s vs rest : Str)
    (hs : skipWs s = dumpStr k ++ ':' :: ' ' :: vs)
    (hv : parseJVal f (' ' :: vs) = some (v, '\x7d' :: rest)) :
    parseJMembers (f + 1) s = some ([(k, v)], rest) := by
  rw [parseJMembers.eq_def]
  dsimp only
  rw [hs]
  rw [show dumpStr k ++ ':' :: ' ' :: vs = '"' :: (jsonEscape k ++ '"' :: ':' :: ' ' :: vs) by
    simp [dumpStr, List.append_assoc]]
  dsimp only
  rw [if_pos rfl, parseJStr_roundtrip k (':' :: ' ' :: vs)]
  dsimp only
  rw [skipWs_nonws ':' _ (by decide)]
  dsimp only
  rw [if_pos rfl, hv]
  dsimp only
  rw [skipWs_nonws '\x7d' _ (by decide)]
  dsimp only
  rw [if_neg (by decide), if_pos rfl]

theorem parseJMembers_cons (f : Nat) (k : Str) (v : JVal) (s vs rest : Str)
    (tailMs : List (Str × JVal)) (rest2 : Str)
    (hs : skipWs s = dumpStr k ++ ':' :: ' ' :: vs)
    (hv : parseJVal f (' ' :: vs) = some (v, ',' :: rest))
    (hrest : parseJMembers f rest = some (tailMs, rest2)) :
    parseJMembers (f + 1) s = some ((k, v) :: tailMs, rest2) := by
  rw [parseJMembers.eq_def]
  dsimp only
  rw [hs]
  rw [show dumpStr k ++ ':' :: ' ' :: vs = '"' :: (jsonEscape k ++ '"' :: ':' :: ' ' :: vs) by
    simp [dumpStr, List.append_assoc]]
  dsimp only
  rw [if_pos rfl, parseJStr_roundtrip k (':' :: ' ' :: vs)]
  dsimp only
  rw [skipWs_nonws ':' _ (by decide)]
  dsimp only
  rw [if_pos rfl, hv]
  dsimp only
  rw [skipWs_nonws ',' _ (by decide)]
  dsimp only
  rw [if_pos rfl, hrest]
  rfl

theorem parseJVal_objQ (f : Nat) (s b2 : Str) (ms : List (Str × JVal)) (rest2 : Str)
    (hs : skipWs s = '\x7b' :: '"' :: b2)
    (hm : parseJMembers f ('"' :: b2) = some (ms, rest2)) :
    parseJVal (f + 1) s = some (.obj ms, rest2) := by
  rw [parseJVal.eq_def]
  dsimp only
  rw [hs]
  dsimp only
  rw [if_neg (by decide), if_neg (by decide), if_pos rfl]
  rw [skipWs_nonws '"' _ (by decide)]
  dsimp only
  rw [if_neg (by decide), hm]
  rfl

theorem parseJVal_arrNE (f : Nat) (s : Str) (c0 : Char) (body : Str)
    (vs : List JVal) (rest2 : Str)
    (hs : skipWs s = '[' :: c0 :: body)
    (hc0 : isJsonWs c0 = false) (hne : ¬ c0 = ']')
    (hi : parseJItems f (c0 :: body) = some (vs, rest2)) :
    parseJVal (f + 1) s = some (.arr vs, rest2) := by
  rw [parseJVal.eq_def]
  dsimp only
  rw [hs]
  dsimp only
  rw [if_neg (by decide), if_pos rfl]
  rw [skipWs_nonws c0 _ hc0]
  dsimp only
  rw [if_neg hne, hi]
  rfl

theorem parseJItems_last (f : Nat) (s : Str) (v : JVal) (rest : Str)
    (hv : parseJVal f s = some (v, ']' :: rest)) :
    parseJItems (f + 1) s = some ([v], rest) := by
  rw [parseJItems.eq_def]
  dsimp only
  rw [hv]
  dsimp only
  rw [skipWs_nonws ']' _ (by decide)]
  dsimp only
  rw [if_neg (by decide), if_pos rfl]

theorem parseJItems_cons (f : Nat) (s : Str) (v : JVal) (rest : Str)
    (vs : List JVal) (rest2 : Str)
    (hv : parseJVal f s = some (v, ',' :: rest))
    (hrest : parseJItems f rest = some (vs, rest2)) :
    parseJItems (f + 1) s = some (v :: vs, rest2) := by
  rw [parseJItems.eq_def]
  dsimp only
  rw [hv]
  dsimp only
  rw [skipWs_nonws ',' _ (by decide)]
  dsimp only
  rw [if_pos rfl, hrest]
  rfl

theorem numHead_not_ws (c : Char) (hc : c = '-' ∨ isDigitChar c = true) :
    isJsonWs c = false := by
  rcases hc with rfl | hdig
  · decide
  · cases hws : isJsonWs c
    · rfl
    · exfalso
      simp only [isJsonWs, Bool.or_eq_true, decide_eq_true_eq] at hws
      rcases hws with ((h | h) | h) | h <;> (rw [h] at hdig; exact absurd hdig (by decide))

theorem skipWs_numHead (d rest : Str)
    (hhead : ∃ c t, d = c :: t ∧ (c = '-' ∨ isDigitChar c = true)) :
    skipWs (d ++ rest) = d ++ rest := by
  obtain ⟨c, t, rfl, hc⟩ := hhead
  rw [List.cons_append]
  exact skipWs_nonws c _ (numHead_not_ws c hc)

theorem skipWs_dumpStr (k rest : Str) :
    skipWs (dumpStr k ++ rest) = dumpStr k ++ rest := by
  rw [show dumpStr k ++ rest = '"' :: (jsonEscape k ++ '"' :: rest) by
    simp [dumpStr, List.append_assoc]]
  exact skipWs_nonws '"' _ (by decide)

theorem numStop_braceClose (rest : Str) : numStop ('\x7d' :: rest) :=
  Or.inr ⟨'\x7d', rest, rfl, by decide, by decide, by decide, by decide⟩

theorem numStop_comma (rest : Str) : numStop (',' :: rest) :=
  Or.inr ⟨',', rest, rfl, by decide, by decide, by decide, by decide⟩

theorem parseJVal_lineObj (f : Nat) (l : OrderLine) (s rest : Str)
    (hs : skipWs s = dumpOrderLineObj l ++ rest) :
    parseJVal (f + 6) s = some (lineJVal l, rest) := by
  have hv4 : parseJVal (f + 1)
      (' ' :: (decDump l.line_total.mant (l.line_total.fd + 1) ++ '\x7d' :: rest)) =
      some (.jnum (.dec l.line_total.mant (l.line_total.fd + 1)), '\x7d' :: rest) := by
    apply parseJVal_jnum f _ _ ('\x7d' :: rest) _
      (decDump_head _ _ (Nat.succ_pos _))
      (parseJNum_decDump _ _ (Nat.succ_pos _) _ (numStop_braceClose rest))
    rw [skipWs_space]
    exact skipWs_numHead _ _ (decDump_head _ _ (Nat.succ_pos _))
  have hm4 : parseJMembers (f + 2)
      (dumpStr (("line_total").data) ++ ':' :: ' ' ::
        (decDump l.line_total.mant (l.line_total.fd + 1) ++ '\x7d' :: rest)) =
      some ([((("line_total").data),
        .jnum (.dec l.line_total.mant (l.line_total.fd + 1)))], rest) := by
    apply parseJMembers_last (f + 1) _ _ _ _ rest (skipWs_dumpStr _ _) hv4
  have hv3 : parseJVal (f + 2)
      (' ' :: (decDump l.unit_price.mant (l.unit_price.fd + 1) ++ ',' :: ' ' ::
        (dumpStr (("line_total").data) ++ ':' :: ' ' ::
          (decDump l.line_total.mant (l.line_total.fd + 1) ++ '\x7d' :: rest)))) =
      some (.jnum (.dec l.unit_price.mant (l.unit_price.fd + 1)), ',' :: ' ' ::
        (dumpStr (("line_total").data) ++ ':' :: ' ' ::
          (decDump l.line_total.mant (l.line_total.fd + 1) ++ '\x7d' :: rest))) := by
    apply parseJVal_jnum (f + 1) _ _ _ _
      (decDump_head _ _ (Nat.succ_pos _))
      (parseJNum_decDump _ _ (Nat.succ_pos _) _ (numStop_comma _))
    rw [skipWs_space]
    exact skipWs_numHead _ _ (decDump_head _ _ (Nat.succ_pos _))
  have hm3 : parseJMembers (f + 3)
      (dumpStr (("unit_price").data) ++ ':' :: ' ' ::
        (decDump l.unit_price.mant (l.unit_price.fd + 1) ++ ',' :: ' ' ::
          (dumpStr (("line_total").data) ++ ':' :: ' ' ::
            (decDump l.line_total.mant (l.line_total.fd + 1) ++ '\x7d' :: rest)))) =
      some ([((("unit_price").data),
          .jnum (.dec l.unit_price.mant (l.unit_price.fd + 1))),
        ((("line_total").data),
          .jnum (.dec l.line_total.mant (l.line_total.fd + 1)))], rest) := by
    apply parseJMembers_cons (f + 2) _ _ _ _ _ _ rest (skipWs_dumpStr _ _) hv3 hm4
  have hv2 : parseJVal (f + 3)
      (' ' :: (intDumps l.quantity ++ ',' :: ' ' ::
        (dumpStr (("unit_price").data) ++ ':' :: ' ' ::
          (decDump l.unit_price.mant (l.unit_price.fd + 1) ++ ',' :: ' ' ::
            (dumpStr (("line_total").data) ++ ':' :: ' ' ::
              (decDump l.line_total.mant (l.line_total.fd + 1) ++ '\x7d' :: rest)))))) =
      some (.jnum (.int l.quantity), ',' :: ' ' ::
        (dumpStr (("unit_price").data) ++ ':' :: ' ' ::
          (decDump l.unit_price.mant (l.unit_price.fd + 1) ++ ',' :: ' ' ::
            (dumpStr (("line_total").data) ++ ':' :: ' ' ::
              (decDump l.line_total.mant (l.line_total.fd + 1) ++ '\x7d' :: rest))))) := by
    apply parseJVal_jnum (f + 2) _ _ _ _
      (intDumps_head _)
      (parseJNum_intDumps _ _ (numStop_comma _))
    rw [skipWs_space]
    exact skipWs_numHead _ _ (intDumps_head _)
  have hm2 : parseJMembers (f + 4)
      (dumpStr (("quantity").data) ++ ':' :: ' ' ::
        (intDumps l.quantity ++ ',' :: ' ' ::
          (dumpStr (("unit_price").data) ++ ':' :: ' ' ::
            (decDump l.unit_price.mant (l.unit_price.fd + 1) ++ ',' :: ' ' ::
              (dumpStr (("line_total").data) ++ ':' :: ' ' ::
                (decDump l.line_total.mant (l.line_total.fd + 1) ++ '\x7d' :: rest)))))) =
      some ([((("quantity").data), .jnum (.int l.quantity)),
        ((("unit_price").data),
          .jnum (.dec l.unit_price.mant (l.unit_price.fd + 1))),
        ((("line_total").data),
          .jnum (.dec l.line_total.mant (l.line_total.fd + 1)))], rest) := by
    apply parseJMembers_cons (f + 3) _ _ _ _ _ _ rest (skipWs_dumpStr _ _) hv2 hm3
  have hv1 : parseJVal (f + 4)
      (' ' :: (dumpStr l.product_code ++ ',' :: ' ' ::
        (dumpStr (("quantity").data) ++ ':' :: ' ' ::
          (intDumps l.quantity ++ ',' :: ' ' ::
            (dumpStr (("unit_price").data) ++ ':' :: ' ' ::
              (decDump l.unit_price.mant (l.unit_price.fd + 1) ++ ',' :: ' ' ::
                (dumpStr (("line_total").data) ++ ':' :: ' ' ::
                  (decDump l.line_total.mant (l.line_total.fd + 1) ++ '\x7d' :: rest)))))))) =
      some (.str l.product_code, ',' :: ' ' ::
        (dumpStr (("quantity").data) ++ ':' :: ' ' ::
          (intDumps l.quantity ++ ',' :: ' ' ::
            (dumpStr (("unit_price").data) ++ ':' :: ' ' ::
              (decDump l.unit_price.mant (l.unit_price.fd + 1) ++ ',' :: ' ' ::
                (dumpStr (("line_total").data) ++ ':' :: ' ' ::
                  (decDump l.line_total.mant (l.line_total.fd + 1) ++ '\x7d' :: rest))))))) := by
    apply parseJVal_str (f + 3)
    rw [skipWs_space]
    exact skipWs_dumpStr _ _
  have hm1 : parseJMembers (f + 5)
      (dumpStr (("product_code").data) ++ ':' :: ' ' ::
        (dumpStr l.product_code ++ ',' :: ' ' ::
          (dumpStr (("quantity").data) ++ ':' :: ' ' ::
            (intDumps l.quantity ++ ',' :: ' ' ::
              (dumpStr (("unit_price").data) ++ ':' :: ' ' ::
                (decDump l.unit_price.mant (l.unit_price.fd + 1) ++ ',' :: ' ' ::
                  (dumpStr (("line_total").data) ++ ':' :: ' ' ::
                    (decDump l.line_total.mant (l.line_total.fd + 1) ++ '\x7d' :: rest)))))))) =
      some ([((("product_code").data), .str l.product_code),
        ((("quantity").data), .jnum (.int l.quantity)),
        ((("unit_price").data),
          .jnum (.dec l.unit_price.mant (l.unit_price.fd + 1))),
        ((("line_total").data),
          .jnum (.dec l.line_total.mant (l.line_total.fd + 1)))], rest) := by
    apply parseJMembers_cons (f + 4) _ _ _ _ _ _ rest (skipWs_dumpStr _ _) hv1 hm2
  have hshape : dumpStr (("product_code").data) ++ ':' :: ' ' ::
      (dumpStr l.product_code ++ ',' :: ' ' ::
        (dumpStr (("quantity").data) ++ ':' :: ' ' ::
          (intDumps l.quantity ++ ',' :: ' ' ::
            (dumpStr (("unit_price").data) ++ ':' :: ' ' ::
              (decDump l.unit_price.mant (l.unit_price.fd + 1) ++ ',' :: ' ' ::
                (dumpStr (("line_total").data) ++ ':' :: ' ' ::
                  (decDump l.line_total.mant (l.line_total.fd + 1) ++ '\x7d' :: rest))))))) =
      '"' :: (jsonEscape (("product_code").data) ++ '"' :: ':' :: ' ' ::
        (dumpStr l.product_code ++ ',' :: ' ' ::
          (dumpStr (("quantity").data) ++ ':' :: ' ' ::
            (intDumps l.quantity ++ ',' :: ' ' ::
              (dumpStr (("unit_price").data) ++ ':' :: ' ' ::
                (decDump l.unit_price.mant (l.unit_price.fd + 1) ++ ',' :: ' ' ::
                  (dumpStr (("line_total").data) ++ ':' :: ' ' ::
                    (decDump l.line_total.mant (l.line_total.fd + 1) ++ '\x7d' :: rest)))))))) := by
    simp [dumpStr, List.append_assoc]
  have hmain : dumpOrderLineObj l ++ rest =
      '\x7b' :: (dumpStr (("product_code").data) ++ ':' :: ' ' ::
        (dumpStr l.product_code ++ ',' :: ' ' ::
          (dumpStr (("quantity").data) ++ ':' :: ' ' ::
            (intDumps l.quantity ++ ',' :: ' ' ::
              (dumpStr (("unit_price").data) ++ ':' :: ' ' ::
                (decDump l.unit_price.mant (l.unit_price.fd + 1) ++ ',' :: ' ' ::
                  (dumpStr (("line_total").data) ++ ':' :: ' ' ::
                    (decDump l.line_total.mant (l.line_total.fd + 1) ++ '\x7d' :: rest)))))))) := by
    simp [dumpOrderLineObj, dumpStr, jsonEscape, jsonEscapeChar, List.append_assoc]
  rw [hshape] at hm1
  apply parseJVal_objQ (f + 5)
  · rw [hs, hmain, hshape]
  · exact hm1

theorem dumpItems_head (ls : List OrderLine) (h : ls ≠ []) :
    ∃ t, dumpItems ls = '\x7b' :: t := by
  cases ls with
  | nil => exact absurd rfl h
  | cons l ls2 =>
    cases ls2 with
    | nil => exact ⟨_, rfl⟩
    | cons l2 t2 => exact ⟨_, rfl⟩

theorem parseJItems_dumpItems : ∀ (ls : List OrderLine) (f : Nat) (s rest : Str),
    ls ≠ [] → skipWs s = dumpItems ls ++ ']' :: rest →
    parseJItems (f + 7 * ls.length) s = some (ls.map lineJVal, rest) := by
  intro ls
  induction ls with
  | nil =>
    intro f s rest h _
    exact absurd rfl h
  | cons l t ih =>
    intro f s rest _ hs
    cases t with
    | nil =>
      have h7 : f + 7 * ([l] : List OrderLine).length = (f + 6) + 1 := by
        simp only [List.length_cons, List.length_nil]
      rw [h7]
      apply parseJItems_last (f + 6)
      apply parseJVal_lineObj f
      exact hs
    | cons l2 t2 =>
      have h7 : f + 7 * (l :: l2 :: t2).length = ((f + 6) + 7 * (l2 :: t2).length) + 1 := by
        simp only [List.length_cons]
        omega
      rw [h7]
      refine parseJItems_cons ((f + 6) + 7 * (l2 :: t2).length) s (lineJVal l)
        (' ' :: (dumpItems (l2 :: t2) ++ ']' :: rest)) ((l2 :: t2).map lineJVal) rest ?_ ?_
      · have h8 : (f + 6) + 7 * (l2 :: t2).length = (f + 7 * (l2 :: t2).length) + 6 := by
          ring
        rw [h8]
        apply parseJVal_lineObj (f + 7 * (l2 :: t2).length)
        rw [hs]
        rw [show dumpItems (l :: l2 :: t2) =
          (dumpOrderLineObj l ++ [',', ' ']) ++ dumpItems (l2 :: t2) from rfl]
        simp [List.append_assoc]
      · apply ih (f + 6)
        · simp
        · rw [skipWs_space]
          obtain ⟨tt, htt⟩ := dumpItems_head (l2 :: t2) (by simp)
          rw [htt, List.cons_append]
          exact skipWs_nonws '\x7b' _ (by decide)

theorem dumpOrderLineObj_len (l : OrderLine) : 7 ≤ (dumpOrderLineObj l).length := by
  simp only [dumpOrderLineObj, List.length_cons, List.length_append]
  omega

theorem dumpItems_len (ls : List OrderLine) (h : ls ≠ []) :
    7 * ls.length ≤ (dumpItems ls).length := by
  induction ls with
  | nil => exact absurd rfl h
  | cons l t ih =>
    cases t with
    | nil =>
      simpa using dumpOrderLineObj_len l
    | cons l2 t2 =>
      rw [show dumpItems (l :: l2 :: t2) =
        (dumpOrderLineObj l ++ [',', ' ']) ++ dumpItems (l2 :: t2) from rfl]
      have h1 := dumpOrderLineObj_len l
      have h2 := ih (by simp)
      simp only [List.length_append, List.length_cons, List.length_nil]
      simp only [List.length_cons] at h2 ⊢
      omega

theorem jsonLoads_dumpOrderLines (ls : List OrderLine) :
    jsonLoads (dumpOrderLines ls) = some (.arr (ls.map lineJVal)) := by
  cases ls with
  | nil => rfl
  | cons l t =>
    unfold jsonLoads
    obtain ⟨tt, htt⟩ := dumpItems_head (l :: t) (by simp)
    have hlen := dumpItems_len (l :: t) (by simp)
    have hfuel : 2 * (dumpOrderLines (l :: t)).length + 8 =
        ((2 * (dumpOrderLines (l :: t)).length + 7 - 7 * (l :: t).length) +
          7 * (l :: t).length) + 1 := by
      have : 7 * (l :: t).length ≤ 2 * (dumpOrderLines (l :: t)).length + 7 := by
        simp only [dumpOrderLines, List.length_cons, List.length_append, List.length_nil]
        simp only [List.length_cons] at hlen
        omega
      omega
    rw [hfuel]
    rw [parseJVal_arrNE _ _ '\x7b' (tt ++ ']' :: []) (List.map lineJVal (l :: t)) []
      ?_ (by decide) (by decide) ?_]
    · rfl
    · rw [show dumpOrderLines (l :: t) = '[' :: (dumpItems (l :: t) ++ [']']) from rfl, htt]
      rw [show ('[' :: (('\x7b' :: tt) ++ [']']) : Str) =
        '[' :: '\x7b' :: (tt ++ ']' :: []) by simp]
      exact skipWs_nonws '[' _ (by decide)
    · rw [show ('\x7b' :: (tt ++ ']' :: []) : Str) = ('\x7b' :: tt) ++ ']' :: [] by simp,
        ← htt]
      apply parseJItems_dumpItems (l :: t) _ _ [] (by simp)
      rw [htt, List.cons_append]
      exact skipWs_nonws '\x7b' _ (by decide)

theorem rowOrderLines_orderFields (o : Order) :
    rowOrderLines csvHeader (orderFields o) = .arr (o.order_lines.map lineJVal) := by
  unfold rowOrderLines rowCell
  rw [show headerIdx csvHeader (("OrderLinesJSON").data) = some 9 from by decide]
  dsimp only
  rw [show (orderFields o).get? 9 =
    some (if o.order_lines.isEmpty then [] else dumpOrderLines o.order_lines) from rfl]
  by_cases h : o.order_lines.isEmpty
  · rw [if_pos h]
    have : o.order_lines = [] := List.isEmpty_iff.mp h
    rw [this]
    rfl
  · rw [if_neg h]
    dsimp only
    rw [show (dumpOrderLines o.order_lines).isEmpty = false from rfl]
    simp only [Bool.false_eq_true, if_false]
    rw [jsonLoads_dumpOrderLines]

theorem import_export_roundtrip (orders : List Order) :
    (import_orders (.ok (export_orders orders))).map (fun rows => rows.map ImpRow.order_lines) =
      .ok (orders.map fun o => JVal.arr (o.order_lines.map lineJVal)) := by
  unfold import_orders export_orders
  dsimp only
  rw [parseCsv_roundtrip (csvHeader :: orders.map orderFields) ?hall]
  case hall =>
    intro r hr
    rcases List.mem_cons.mp hr with rfl | hr2
    · decide
    · obtain ⟨o, _, rfl⟩ := List.mem_map.mp hr2
      simp [orderFields]
  dsimp only
  simp only [Except.map, List.map_map]
  congr 1
  apply List.map_congr_left
  intro o _
  exact rowOrderLines_orderFields o

/-! ## Claim C1: order CSV export/import round trip -/
/-- Claim C1: exporting any list of orders with `export_orders` and
importing the file back with `import_orders` yields exactly one row per
order whose `order_lines` value is the JSON array holding, in order, each
exported line's `product_code`, `quantity`, `unit_price` and `line_total`
(an order with no lines round-trips to the empty array); and a present,
non-empty `OrderLinesJSON` cell that fails to parse as JSON imports as
the empty array. -/
theorem C1_export_import :
    (∀ orders : List Order,
      (import_orders (.ok (export_orders orders))).map
          (fun rows => rows.map ImpRow.order_lines) =
        .ok (orders.map fun o => JVal.arr (o.order_lines.map lineJVal))) ∧
    (∀ header fields cell,
      rowCell header fields (("OrderLinesJSON").data) = some (some cell) →
      cell.isEmpty = false → jsonLoads cell = none →
      rowOrderLines header fields = .arr []) := by
  constructor
  · exact import_export_roundtrip
  · intro header fields cell hcell hne hbad
    unfold rowOrderLines
    rw [hcell]
    dsimp only
    rw [hne]
    simp only [Bool.false_eq_true, if_false]
    rw [hbad]

/-- Witness for C1's malformed-cell clause at a concrete row: the cell
`"not json"` under the `OrderLinesJSON` column imports as the empty
array. -/
theorem C1_witness :
    rowOrderLines csvHeader
      [[], [], [], [], [], [], [], [], [], (("not json").data)] = .arr [] :=
  C1_export_import.2 csvHeader
    [[], [], [], [], [], [], [], [], [], (("not json").data)]
    (("not json").data) (by decide) (by decide) rfl

/-! ## Claim C3: absorption of file-read failures -/
/-- Claim C3 (amended): the address, agent and product loaders absorb a
failed or missing-file read into their empty/default collections, but
`CSVHandler.import_orders` does not: its `except` block logs the error
and then re-raises it (`raise`), propagating the exception to the
caller. -/
theorem C3_read_failures :
    load_addresses .err = [] ∧
    load_addresses .missing = [] ∧
    load_agents .err = Config.DEFAULT_AGENTS ∧
    load_agents .missing = Config.DEFAULT_AGENTS ∧
    load_products .err = [] ∧
    load_products .missing = [] ∧
    import_orders .err = Except.error () ∧
    import_orders .missing = Except.error () :=
  ⟨rfl, rfl, rfl, rfl, rfl, rfl, rfl, rfl⟩

/-- Counterexample to C3 as stated: a failed read of the orders CSV
makes `import_orders` raise (`Except.error`) instead of returning an
empty collection. -/
theorem C3_counterexample : import_orders .err = Except.error () :=
  rfl
